import Mathlib

/-!
Shallow embedding of the inventory/item management server
(`src/unnamed/part_001`, an Express + Prisma application) and of the
relevant schema constraints (`src/unnamed/part_000`, the SQL migration).

Conventions of the embedding:
* The Postgres tables are lists of records inside a `DB` structure; the
  unique index `Item_inventoryId_customId_key` and the foreign key
  `ItemFieldValue_fieldId_fkey` are modelled as explicit checks at the
  places where Prisma/Postgres would raise them (`P2002` / `P2003`).
* JSON request bodies are modelled post-parsing: an absent or `null`
  member of a payload is `Option.none`; a JSON number that is present and
  not `NaN` is `some n` (numbers are modelled as `Int`, which covers every
  value the claims exercise).  The server's sanitisation steps, which
  normalise `undefined`/`NaN`/non-boolean values to `null`, are therefore
  identities on the already-typed payloads but are kept as definitions
  mirroring the source.
* Randomness and the wall clock (`crypto.randomInt`, `crypto.randomUUID`,
  `new Date()`, `Math.random`) are supplied by a `GenEnv` oracle, so that
  `generateCustomIdForInventory` is a function of the database and the
  oracle.
* Fresh primary keys (Prisma `cuid()` defaults) are drawn from a counter
  `DB.nextId`.
* Each API handler becomes a function `DB → … → Result × DB`; an aborted
  Prisma transaction is modelled by returning the unchanged database.
-/

namespace InvApp

/-- Field types of the `InventoryFieldType` Postgres enum. -/
inductive InventoryFieldType where
  | SINGLE_LINE_TEXT
  | MULTI_LINE_TEXT
  | NUMBER
  | LINK
  | BOOLEAN
deriving DecidableEq, Repr

/-- Parsing of the `type` string of an `InventoryFieldPayload`; the server
recognises exactly the five enum values (the `limits[type]` lookup in
`PUT /api/inventories/:id/fields` is falsy for anything else). -/
def parseFieldType (s : String) : Option InventoryFieldType :=
  if s = "SINGLE_LINE_TEXT" then some .SINGLE_LINE_TEXT
  else if s = "MULTI_LINE_TEXT" then some .MULTI_LINE_TEXT
  else if s = "NUMBER" then some .NUMBER
  else if s = "LINK" then some .LINK
  else if s = "BOOLEAN" then some .BOOLEAN
  else none

/-- Categories of the `InventoryCategory` Postgres enum. -/
inductive InventoryCategory where
  | EQUIPMENT
  | FURNITURE
  | BOOK
  | OTHER
deriving DecidableEq, Repr

/-- Element types of the `CustomIdElementType` Postgres enum. -/
inductive CustomIdElementType where
  | FIXED_TEXT
  | RANDOM_20_BITS
  | RANDOM_32_BITS
  | RANDOM_6_DIGITS
  | RANDOM_9_DIGITS
  | GUID
  | DATETIME
  | SEQUENCE
deriving DecidableEq, Repr

/-- Row of the `User` table (the columns the modelled handlers read). -/
structure User where
  id : String
  email : String
  name : Option String
deriving DecidableEq, Repr

/-- Row of the `Inventory` table (the columns the modelled handlers read;
`version INTEGER NOT NULL DEFAULT 1`). -/
structure Inventory where
  id : String
  title : String
  description : Option String
  category : InventoryCategory
  isPublic : Bool
  imageUrl : Option String
  version : Int
deriving DecidableEq, Repr

/-- Row of the `InventoryField` table. -/
structure InventoryField where
  id : String
  inventoryId : String
  type : InventoryFieldType
  title : String
  description : Option String
  showInTable : Bool
  orderIndex : Int
deriving DecidableEq, Repr

/-- Row of the `Item` table (`version INTEGER NOT NULL DEFAULT 1`;
unique index on `(inventoryId, customId)`). -/
structure Item where
  id : String
  inventoryId : String
  customId : String
  version : Int
  createdById : String
deriving DecidableEq, Repr

/-- Row of the `ItemFieldValue` table: four nullable typed slots. -/
structure ItemFieldValue where
  itemId : String
  fieldId : String
  valueString : Option String
  valueNumber : Option Int
  valueBoolean : Option Bool
  valueLink : Option String
deriving DecidableEq, Repr

/-- Row of the `InventoryCustomIdElement` table. -/
structure CustomIdElement where
  id : String
  inventoryId : String
  type : CustomIdElementType
  orderIndex : Int
  fixedText : Option String
  numberWidth : Option Int
deriving DecidableEq, Repr

/-- State of the store: one list per table, plus a counter supplying the
`cuid()` primary-key defaults. -/
structure DB where
  users : List User
  inventories : List Inventory
  fields : List InventoryField
  items : List Item
  fieldValues : List ItemFieldValue
  elements : List CustomIdElement
  nextId : Nat
deriving DecidableEq, Repr

/-- Fresh primary key drawn from the `DB.nextId` counter. -/
def freshId (n : Nat) : String := "cuid-" ++ toString n

/-- JavaScript `String.prototype.trim` (for the ASCII strings the
application handles), as a structural function on the character list. -/
def jsTrim (s : String) : String :=
  String.mk (((s.data.dropWhile Char.isWhitespace).reverse.dropWhile
    Char.isWhitespace).reverse)

/-- Prisma `findUnique` on `Inventory.id`. -/
def findInventory (db : DB) (inventoryId : String) : Option Inventory :=
  db.inventories.find? (fun i => i.id == inventoryId)

/-- Prisma `findUnique` on `Item.id`. -/
def findItem (db : DB) (itemId : String) : Option Item :=
  db.items.find? (fun i => i.id == itemId)

/-- Prisma `findUnique` on `User.email`. -/
def findUserByEmail (db : DB) (email : String) : Option User :=
  db.users.find? (fun u => u.email == email)

/-- Field rows of one inventory, in table order. -/
def fieldsFor (db : DB) (inventoryId : String) : List InventoryField :=
  db.fields.filter (fun f => f.inventoryId == inventoryId)

/-- Field-value rows of one item, in table order. -/
def valuesFor (db : DB) (itemId : String) : List ItemFieldValue :=
  db.fieldValues.filter (fun v => v.itemId == itemId)

/-- Insertion of an element into a list, before the first entry it
compares `le` to; on an input sorted by `le` this keeps it sorted and is
stable. -/
def insertLe (le : α → α → Bool) (a : α) : List α → List α
  | [] => [a]
  | b :: bs => if le a b then a :: b :: bs else b :: insertLe le a bs

/-- Stable sort by a boolean comparison, used to model both Postgres
`ORDER BY` and JavaScript `Array.prototype.sort` (stable since ES2019);
tie order between the two is unspecified/irrelevant for every property
stated below. -/
def sortBy (le : α → α → Bool) : List α → List α
  | [] => []
  | a :: as => insertLe le a (sortBy le as)

/-- Boolean order on fields used for `orderBy orderIndex asc`. -/
def fieldOrderLe (a b : InventoryField) : Bool := a.orderIndex ≤ b.orderIndex

/-- Boolean order on elements used for `orderBy orderIndex asc`. -/
def elementOrderLe (a b : CustomIdElement) : Bool := a.orderIndex ≤ b.orderIndex

/-- Postgres `ORDER BY "orderIndex" ASC` over the field rows. -/
def sortFields (l : List InventoryField) : List InventoryField :=
  sortBy fieldOrderLe l

/-- Postgres `ORDER BY "orderIndex" ASC` over the element rows. -/
def sortElements (l : List CustomIdElement) : List CustomIdElement :=
  sortBy elementOrderLe l

/-! ### Custom-ID composer (`generateCustomIdForInventory`) -/

/-- Oracle supplying the impure inputs of `generateCustomIdForInventory`:
`draw i bound` is the value `crypto.randomInt(0, bound)` returns for the
element at position `i`, `guid i` is the `crypto.randomUUID()` result
there, `nowStr` is the compact timestamp derived from the single
`new Date()` taken per invocation, and `fallbackSuffix` is the
`Math.random().toString(36).slice(2, 8).toUpperCase()` suffix used when
the inventory has no elements. -/
structure GenEnv where
  draw : Nat → Nat → Nat
  guid : Nat → String
  nowStr : String
  fallbackSuffix : String

/-- JavaScript `String.prototype.padStart(width, c)`: left-pad to `width`
characters (a non-positive or smaller `width` leaves the string as is). -/
def padStart (s : String) (width : Int) (c : Char) : String :=
  String.mk (List.replicate (width.toNat - s.length) c) ++ s

/-- JavaScript `Number.prototype.toString(16)` on a non-negative integer,
followed by `.toUpperCase()`. -/
def toHexUpper (n : Nat) : String :=
  String.mk ((Nat.toDigits 16 n).map Char.toUpper)

/-- Rendering of one custom-id element, mirroring the `switch` in
`generateCustomIdForInventory`; `idx` is the element's position (used to
address the oracle) and `nextSequence` is `itemsCount + 1`. -/
def renderElement (env : GenEnv) (idx : Nat) (nextSequence : Nat)
    (e : CustomIdElement) : String :=
  match e.type with
  | .FIXED_TEXT => e.fixedText.getD ""
  | .RANDOM_20_BITS => toHexUpper (env.draw idx (2 ^ 20))
  | .RANDOM_32_BITS => toHexUpper (env.draw idx (2 ^ 31))
  | .RANDOM_6_DIGITS =>
      padStart (toString (env.draw idx (10 ^ 6))) (e.numberWidth.getD 6) '0'
  | .RANDOM_9_DIGITS =>
      padStart (toString (env.draw idx (10 ^ 9))) (e.numberWidth.getD 9) '0'
  | .GUID => env.guid idx
  | .DATETIME => env.nowStr
  | .SEQUENCE => padStart (toString nextSequence) (e.numberWidth.getD 6) '0'

/-- Position-indexed map, mirroring `elements.map((element, index) => …)`. -/
def mapIdxFrom (f : Nat → α → β) : Nat → List α → List β
  | _, [] => []
  | i, a :: as => f i a :: mapIdxFrom f (i + 1) as

/-- Count of the inventory's items, `prisma.item.count({ where: { inventoryId } })`. -/
def itemsCountFor (db : DB) (inventoryId : String) : Nat :=
  (db.items.filter (fun i => i.inventoryId == inventoryId)).length

/-- Embedding of `generateCustomIdForInventory`: render the inventory's
elements in ascending `orderIndex` and concatenate; with no elements, fall
back to `INV-` plus a random suffix. -/
def generateCustomIdForInventory (env : GenEnv) (db : DB)
    (inventoryId : String) : String :=
  let elements := sortElements
    (db.elements.filter (fun e => e.inventoryId == inventoryId))
  if elements.isEmpty then
    "INV-" ++ env.fallbackSuffix
  else
    let nextSequence := itemsCountFor db inventoryId + 1
    String.join (mapIdxFrom (fun i e => renderElement env i nextSequence e) 0 elements)

/-! ### `PATCH /api/inventories/:id` -/

/-- Body of `PATCH /api/inventories/:id` (tags are handled by separate
tag tables that no claim touches and are not modelled). -/
structure InventoryPatch where
  title : Option String
  description : Option String
  category : Option InventoryCategory
  isPublic : Option Bool
  imageUrl : Option String
  version : Int
deriving DecidableEq, Repr

/-- Response shape of the inventory endpoints (`description ?? ""`). -/
structure InventoryView where
  id : String
  title : String
  description : String
  category : InventoryCategory
  isPublic : Bool
  version : Int
  imageUrl : Option String
deriving DecidableEq, Repr

/-- Projection of an `Inventory` row onto the response shape. -/
def inventoryView (inv : Inventory) : InventoryView :=
  { id := inv.id
    title := inv.title
    description := inv.description.getD ""
    category := inv.category
    isPublic := inv.isPublic
    version := inv.version
    imageUrl := inv.imageUrl }

/-- Possible outcomes of `PATCH /api/inventories/:id`. -/
inductive InventoryPatchResult where
  | notFound (message : String)
  | versionConflict (message : String) (current : InventoryView)
  | ok (updated : InventoryView)
deriving DecidableEq, Repr

/-- Prisma `update where id` on the inventory table. -/
def updateInventoryRows (rows : List Inventory) (inventoryId : String)
    (upd : Inventory) : List Inventory :=
  rows.map (fun r => if r.id == inventoryId then upd else r)

/-- Prisma `update where id` on the item table. -/
def updateItemRows (rows : List Item) (itemId : String) (upd : Item) :
    List Item :=
  rows.map (fun r => if r.id == itemId then upd else r)

/-- Columns written by the accepted branch of `PATCH /api/inventories/:id`:
`title ?? current.title` and likewise for the other patchable columns,
with the `typeof` guards for `isPublic` and `imageUrl`, plus
`version: increment 1`. -/
def applyInventoryPatch (current : Inventory) (p : InventoryPatch) : Inventory :=
  { current with
    title := p.title.getD current.title
    description := match p.description with
      | some d => some d
      | none => current.description
    category := p.category.getD current.category
    isPublic := p.isPublic.getD current.isPublic
    imageUrl := match p.imageUrl with
      | some s => some s
      | none => current.imageUrl
    version := current.version + 1 }

/-- Embedding of the `PATCH /api/inventories/:id` handler: not-found
check, version check against the stored row, then the transactional
update of the row. -/
def patchInventory (db : DB) (inventoryId : String) (p : InventoryPatch) :
    InventoryPatchResult × DB :=
  match findInventory db inventoryId with
  | none => (.notFound "Inventory not found", db)
  | some current =>
    if p.version ≠ current.version then
      (.versionConflict "Inventory has been modified by someone else."
        (inventoryView current), db)
    else
      let updated := applyInventoryPatch current p
      let rows := updateInventoryRows db.inventories inventoryId updated
      let db2 : DB := { db with inventories := rows }
      (.ok (inventoryView updated), db2)

/-! ### `PATCH /api/items/:id` -/

/-- Entry of the `fields` array of an item update, post-parsing (absent
and `null` members are both `none`). -/
structure ItemFieldValuePayload where
  fieldId : String
  valueString : Option String
  valueNumber : Option Int
  valueBoolean : Option Bool
  valueLink : Option String
deriving DecidableEq, Repr

/-- Body of `PATCH /api/items/:id`; `fields := none` models a body whose
`fields` member is not an array (the `Array.isArray` check). -/
structure ItemUpdatePayload where
  customId : Option String
  version : Int
  fields : Option (List ItemFieldValuePayload)
deriving DecidableEq, Repr

/-- Normalisation applied to each submitted field value (`?? null`, the
`typeof`/`Number.isNaN` guard for numbers, the `typeof` guard for
booleans); on the already-typed payload every guard is satisfied, so each
slot passes through. -/
def sanitizeFieldValue (f : ItemFieldValuePayload) : ItemFieldValuePayload :=
  { fieldId := f.fieldId
    valueString := f.valueString
    valueNumber := f.valueNumber
    valueBoolean := f.valueBoolean
    valueLink := f.valueLink }

/-- Filter deciding which sanitised entries are persisted: at least one of
the four typed slots is non-null. -/
def hasNonNullSlot (f : ItemFieldValuePayload) : Bool :=
  f.valueString.isSome || f.valueNumber.isSome ||
  f.valueBoolean.isSome || f.valueLink.isSome

/-- Response shape of the item endpoints; the handler additionally joins
each value with its field's title/type/description, derived data that the
view keeps as the raw `ItemFieldValue` rows. -/
structure ItemView where
  id : String
  inventoryId : String
  customId : String
  version : Int
  fields : List ItemFieldValue
deriving DecidableEq, Repr

/-- Projection of an `Item` row (with its field values) onto the response
shape. -/
def itemView (db : DB) (it : Item) : ItemView :=
  { id := it.id
    inventoryId := it.inventoryId
    customId := it.customId
    version := it.version
    fields := valuesFor db it.id }

/-- Possible outcomes of `PATCH /api/items/:id`: `uniqueConflict` is the
caught Prisma `P2002` (duplicate `(inventoryId, customId)`), and
`serverError` is any other transaction failure reaching the outer catch —
in particular the `P2003` foreign-key violation raised by `createMany`
when a submitted `fieldId` does not exist in `InventoryField`. -/
inductive ItemPatchResult where
  | notFound (message : String)
  | versionConflict (message : String) (current : ItemView)
  | uniqueConflict (message : String)
  | serverError (message : String)
  | ok (updated : ItemView)
deriving DecidableEq, Repr

/-- Prisma `P2002` condition of the item update: another row of the same
inventory already stores the new `customId`
(`Item_inventoryId_customId_key`). -/
def hasDuplicateCustomId (db : DB) (current : Item) (newCustomId : String) : Bool :=
  db.items.any (fun other =>
    other.id ≠ current.id ∧ other.inventoryId = current.inventoryId ∧
    other.customId = newCustomId)

/-- Columns written by the `tx.item.update` of the accepted branch:
`customId ?? current.customId` and `version: increment 1`. -/
def applyItemPatch (current : Item) (newCustomId : String) : Item :=
  { current with customId := newCustomId, version := current.version + 1 }

/-- Row inserted by the `createMany` of the item update for one
sanitised non-empty payload entry. -/
def payloadValue (itemId : String) (v : ItemFieldValuePayload) : ItemFieldValue :=
  { itemId := itemId
    fieldId := v.fieldId
    valueString := v.valueString
    valueNumber := v.valueNumber
    valueBoolean := v.valueBoolean
    valueLink := v.valueLink }

/-- Embedding of the `PATCH /api/items/:id` handler.  Order of effects as
in the source transaction: the `item.update` (where a duplicate
`(inventoryId, customId)` raises `P2002`), then `deleteMany` of the
item's values and `createMany` of the non-empty sanitised entries (where
an unknown `fieldId` violates `ItemFieldValue_fieldId_fkey`).  A raise
anywhere rolls the whole transaction back. -/
def patchItem (db : DB) (itemId : String) (p : ItemUpdatePayload) :
    ItemPatchResult × DB :=
  match findItem db itemId with
  | none => (.notFound "Item not found", db)
  | some current =>
    if p.version ≠ current.version then
      (.versionConflict "Item has been modified by someone else."
        (itemView db current), db)
    else
      let newCustomId := p.customId.getD current.customId
      if hasDuplicateCustomId db current newCustomId then
        (.uniqueConflict
          "Custom ID already exists in this inventory. Please choose another value.",
          db)
      else
        let updatedItem := applyItemPatch current newCustomId
        let itemsAfter := updateItemRows db.items itemId updatedItem
        match p.fields with
        | none =>
          let db2 : DB := { db with items := itemsAfter }
          (.ok (itemView db2 updatedItem), db2)
        | some fs =>
          let valuesToCreate := (fs.map sanitizeFieldValue).filter hasNonNullSlot
          if valuesToCreate.any (fun v =>
              !(db.fields.any (fun f => f.id == v.fieldId))) then
            (.serverError "Failed to update item", db)
          else
            let db2 : DB :=
              { db with
                items := itemsAfter
                fieldValues :=
                  db.fieldValues.filter (fun v => v.itemId ≠ itemId) ++
                  valuesToCreate.map (payloadValue itemId) }
            (.ok (itemView db2 updatedItem), db2)

/-! ### `PUT /api/inventories/:id/fields` -/

/-- Entry of the `fields` array of a schema replacement; `type` is the
raw string of the request (the server validates it against the five
recognised names). -/
structure InventoryFieldPayload where
  type : String
  title : String
  description : Option String
  showInTable : Option Bool
  orderIndex : Option Int
deriving DecidableEq, Repr

/-- Per-type counters of the validation loop, one per recognised type. -/
def zeroCounters : InventoryFieldType → Nat := fun _ => 0

/-- Increment of one counter. -/
def bumpCounter (c : InventoryFieldType → Nat) (t : InventoryFieldType) :
    InventoryFieldType → Nat :=
  fun u => if u = t then c u + 1 else c u

/-- Validation loop of `PUT /api/inventories/:id/fields`, in source
order: unsupported type, then missing/blank title, then the per-type cap
of 3; returns the first error message, or `none` when the list passes. -/
def validateFieldsAux (c : InventoryFieldType → Nat) :
    List InventoryFieldPayload → Option String
  | [] => none
  | f :: rest =>
    match parseFieldType f.type with
    | none => some ("Unsupported field type: " ++ f.type)
    | some t =>
      if jsTrim f.title = "" then
        some "Field title is required for all fields."
      else
        let c2 := bumpCounter c t
        if c2 t > 3 then
          some ("Too many fields of type " ++ f.type ++ ". Maximum is 3.")
        else
          validateFieldsAux c2 rest

/-- Validation of a submitted field list, starting from zero counters. -/
def validateFields (fields : List InventoryFieldPayload) : Option String :=
  validateFieldsAux zeroCounters fields

/-- Sanitisation of one submitted field at position `index`: trimmed
title, trimmed-or-null description, `Boolean(showInTable)`, and
`orderIndex` taken from the payload when it is a number, else `index`. -/
def sanitizeField (inventoryId : String) (rowId : String) (index : Nat)
    (f : InventoryFieldPayload) : InventoryField :=
  { id := rowId
    inventoryId := inventoryId
    type := (parseFieldType f.type).getD .SINGLE_LINE_TEXT
    title := jsTrim f.title
    description := match f.description with
      | some d => if (jsTrim d).length > 0 then some (jsTrim d) else none
      | none => none
    showInTable := f.showInTable.getD false
    orderIndex := f.orderIndex.getD index }

/-- Possible outcomes of `PUT /api/inventories/:id/fields`;
`serverError` is a transaction failure reaching the outer catch (in the
empty-list path, deleting fields that still have values violates
`ItemFieldValue_fieldId_fkey`, which is `ON DELETE RESTRICT`). -/
inductive ReplaceFieldsResult where
  | notFound (message : String)
  | validationError (message : String)
  | serverError (message : String)
  | ok (fields : List InventoryField)
deriving DecidableEq, Repr

/-- Embedding of the `PUT /api/inventories/:id/fields` handler:
not-found check; delete-all on an absent/empty list; otherwise validate
first, then in one transaction delete the inventory's prior fields
together with their `ItemFieldValue` rows and `createMany` the sanitised
list (fresh `cuid()` ids), finally re-reading the rows ordered by
`orderIndex` ascending. -/
def replaceFields (db : DB) (inventoryId : String)
    (payload : Option (List InventoryFieldPayload)) :
    ReplaceFieldsResult × DB :=
  match findInventory db inventoryId with
  | none => (.notFound "Inventory not found", db)
  | some _ =>
    let fields := payload.getD []
    if fields.isEmpty then
      let existingIds := (fieldsFor db inventoryId).map (fun f => f.id)
      if db.fieldValues.any (fun v => existingIds.contains v.fieldId) then
        (.serverError "Failed to save fields", db)
      else
        let remaining := db.fields.filter (fun f => f.inventoryId ≠ inventoryId)
        (.ok [], { db with fields := remaining })
    else
      match validateFields fields with
      | some msg => (.validationError msg, db)
      | none =>
        let existingIds := (fieldsFor db inventoryId).map (fun f => f.id)
        let newRows := mapIdxFrom
          (fun index f => sanitizeField inventoryId (freshId (db.nextId + index)) index f)
          0 fields
        let keptFields := db.fields.filter (fun f => f.inventoryId ≠ inventoryId)
        let keptValues := db.fieldValues.filter
          (fun v => !(existingIds.contains v.fieldId))
        let db2 : DB :=
          { db with
            fields := keptFields ++ newRows
            fieldValues := keptValues
            nextId := db.nextId + fields.length }
        (.ok (sortFields (fieldsFor db2 inventoryId)), db2)

/-! ### `PUT /api/inventories/:id/custom-id` -/

/-- Entry of the `elements` array of a custom-id format replacement. -/
structure CustomIdElementPayload where
  type : CustomIdElementType
  orderIndex : Option Int
  fixedText : Option String
  numberWidth : Option Int
deriving DecidableEq, Repr

/-- Possible outcomes of `PUT /api/inventories/:id/custom-id`. -/
inductive ReplaceElementsResult where
  | notFound (message : String)
  | ok (elements : List CustomIdElement)
deriving DecidableEq, Repr

/-- Embedding of the `PUT /api/inventories/:id/custom-id` handler: an
absent/empty list clears the inventory's elements; otherwise the prior
elements are deleted and the sanitised list (orderIndex defaulting to the
position) is recreated in one transaction, then re-read ordered by
`orderIndex` ascending. -/
def replaceCustomIdElements (db : DB) (inventoryId : String)
    (payload : Option (List CustomIdElementPayload)) :
    ReplaceElementsResult × DB :=
  match findInventory db inventoryId with
  | none => (.notFound "Inventory not found", db)
  | some _ =>
    let elements := payload.getD []
    if elements.isEmpty then
      let remaining := db.elements.filter (fun e => e.inventoryId ≠ inventoryId)
      (.ok [], { db with elements := remaining })
    else
      let newRows := mapIdxFrom
        (fun index e =>
          { id := freshId (db.nextId + index)
            inventoryId := inventoryId
            type := e.type
            orderIndex := e.orderIndex.getD index
            fixedText := e.fixedText
            numberWidth := e.numberWidth : CustomIdElement })
        0 elements
      let kept := db.elements.filter (fun e => e.inventoryId ≠ inventoryId)
      let db2 : DB :=
        { db with
          elements := kept ++ newRows
          nextId := db.nextId + elements.length }
      let stored := sortElements
        (db2.elements.filter (fun e => e.inventoryId == inventoryId))
      (.ok stored, db2)

/-! ### `POST /api/inventories/:id/items` -/

/-- Resolution of `createdByEmail || "demo@example.com"` (the empty
string is falsy in JavaScript). -/
def resolveEmail (e : Option String) : String :=
  match e with
  | some s => if s = "" then "demo@example.com" else s
  | none => "demo@example.com"

/-- Possible outcomes of `POST /api/inventories/:id/items`;
`uniqueConflict` is the caught `P2002` on
`Item_inventoryId_customId_key`. -/
inductive CreateItemResult where
  | notFound (message : String)
  | uniqueConflict (message : String)
  | ok (item : Item)
deriving DecidableEq, Repr

/-- Embedding of the `POST /api/inventories/:id/items` handler: lookups,
then `customId ?? generateCustomIdForInventory(…)`, then the insert
guarded by the unique index on `(inventoryId, customId)` (version
defaults to 1). -/
def createItem (env : GenEnv) (db : DB) (inventoryId : String)
    (customId : Option String) (createdByEmail : Option String) :
    CreateItemResult × DB :=
  match findInventory db inventoryId with
  | none => (.notFound "Inventory not found", db)
  | some _ =>
    match findUserByEmail db (resolveEmail createdByEmail) with
    | none => (.notFound "User not found", db)
    | some user =>
      let generatedId := customId.getD (generateCustomIdForInventory env db inventoryId)
      if db.items.any (fun it =>
          it.inventoryId == inventoryId && it.customId == generatedId) then
        (.uniqueConflict
          "Custom ID already exists in this inventory. Please choose another value.",
          db)
      else
        let item : Item :=
          { id := freshId db.nextId
            inventoryId := inventoryId
            customId := generatedId
            version := 1
            createdById := user.id }
        (.ok item, { db with items := db.items ++ [item], nextId := db.nextId + 1 })

/-! ### `GET /api/inventories/:id/stats`

The handler sorts with `String.prototype.localeCompare`, a host-library
collation.  It is modelled here, for the ASCII strings the application
compares, as Node's default ICU root collation: a primary pass that
ignores case, then a tertiary pass where lowercase sorts before
uppercase.  In particular `"a"` sorts before `"B"` (primary `a < b`),
unlike code-unit order. -/

/-- Three-way comparison of naturals. -/
def cmpNat (a b : Nat) : Ordering :=
  if a < b then .lt else if b < a then .gt else .eq

/-- Lexicographic lift of a three-way comparison to lists. -/
def cmpList (cmp : α → α → Ordering) : List α → List α → Ordering
  | [], [] => .eq
  | [], _ :: _ => .lt
  | _ :: _, [] => .gt
  | a :: as, b :: bs =>
    match cmp a b with
    | .eq => cmpList cmp as bs
    | o => o

/-- Primary collation key: code points after lowercasing. -/
def primaryKey (s : String) : List Nat :=
  s.data.map (fun c => c.toLower.toNat)

/-- Tertiary collation key: lowercase and caseless characters weigh 0,
uppercase weigh 1. -/
def tertiaryKey (s : String) : List Nat :=
  s.data.map (fun c => if c.isUpper then 1 else 0)

/-- Model of `a.localeCompare(b)` (sign only, as an `Ordering`). -/
def localeCompare (a b : String) : Ordering :=
  match cmpList cmpNat (primaryKey a) (primaryKey b) with
  | .eq => cmpList cmpNat (tertiaryKey a) (tertiaryKey b)
  | o => o

/-- JavaScript `Map.prototype.get` on an insertion-ordered map. -/
def mapGet (m : List (String × β)) (k : String) : Option β :=
  (m.find? (fun p => p.1 == k)).map (fun p => p.2)

/-- JavaScript `Map.prototype.set`: update in place when the key exists,
append otherwise. -/
def mapSet (m : List (String × β)) (k : String) (v : β) : List (String × β) :=
  if m.any (fun p => p.1 == k) then
    m.map (fun p => if p.1 == k then (k, v) else p)
  else m ++ [(k, v)]

/-- One entry of a text field's frequency report. -/
structure TextFieldValueStats where
  value : String
  count : Nat
deriving DecidableEq, Repr

/-- Per-field text statistics of the response. -/
structure TextFieldStats where
  fieldId : String
  title : String
  topValues : List TextFieldValueStats
deriving DecidableEq, Repr

/-- Per-field numeric statistics of the response (the running `avg` sum
is divided by the count at the end; values are rationals in the model). -/
structure NumericFieldStats where
  fieldId : String
  title : String
  count : Nat
  min : Int
  max : Int
  avg : Rat
deriving DecidableEq, Repr

/-- Accumulator of the numeric single pass (the `avg` member of the
source holds the running sum until the final division). -/
structure NumericAgg where
  title : String
  count : Nat
  min : Int
  max : Int
  sum : Int
deriving DecidableEq, Repr

/-- Accumulator of the text single pass: field title and the
insertion-ordered frequency map. -/
structure TextAgg where
  title : String
  counts : List (String × Nat)
deriving DecidableEq, Repr

/-- Join of the `itemFieldValue.findMany` for numeric statistics: values
of the inventory's items whose field is of type `NUMBER` and whose
`valueNumber` is non-null, each with its field row. -/
def numericRows (db : DB) (inventoryId : String) :
    List (ItemFieldValue × InventoryField) :=
  db.fieldValues.filterMap (fun v =>
    match findItem db v.itemId, db.fields.find? (fun f => f.id == v.fieldId) with
    | some it, some f =>
      if it.inventoryId == inventoryId && f.type == .NUMBER && v.valueNumber.isSome
      then some (v, f) else none
    | _, _ => none)

/-- Join of the `itemFieldValue.findMany` for text statistics: values of
the inventory's items whose field is of a text type and whose
`valueString` is non-null, each with its field row. -/
def textRows (db : DB) (inventoryId : String) :
    List (ItemFieldValue × InventoryField) :=
  db.fieldValues.filterMap (fun v =>
    match findItem db v.itemId, db.fields.find? (fun f => f.id == v.fieldId) with
    | some it, some f =>
      if it.inventoryId == inventoryId &&
          (f.type == .SINGLE_LINE_TEXT || f.type == .MULTI_LINE_TEXT) &&
          v.valueString.isSome
      then some (v, f) else none
    | _, _ => none)

/-- Single numeric pass over the joined rows (`numericByField`). -/
def numericFold (rows : List (ItemFieldValue × InventoryField)) :
    List (String × NumericAgg) :=
  rows.foldl (fun m r =>
    let num := r.1.valueNumber.getD 0
    match mapGet m r.1.fieldId with
    | none =>
      mapSet m r.1.fieldId
        { title := r.2.title, count := 1, min := num, max := num, sum := num }
    | some s =>
      mapSet m r.1.fieldId
        { title := s.title
          count := s.count + 1
          min := if num < s.min then num else s.min
          max := if num > s.max then num else s.max
          sum := s.sum + num }) []

/-- One step of the text pass (`textByField`): trim, skip blanks, then
create or bump the per-field frequency entry. -/
def textStep (m : List (String × TextAgg))
    (r : ItemFieldValue × InventoryField) : List (String × TextAgg) :=
  let text := jsTrim (r.1.valueString.getD "")
  if text = "" then m
  else
    match mapGet m r.1.fieldId with
    | none => mapSet m r.1.fieldId { title := r.2.title, counts := [(text, 1)] }
    | some e =>
      let previous := (mapGet e.counts text).getD 0
      mapSet m r.1.fieldId
        { title := e.title, counts := mapSet e.counts text (previous + 1) }

/-- Single text pass over the joined rows: keys are the trimmed strings,
blank-after-trim values are skipped. -/
def textFold (rows : List (ItemFieldValue × InventoryField)) :
    List (String × TextAgg) :=
  rows.foldl textStep []

/-- Boolean order of the `topValues` sort: the comparator
`(a, b) => b.count - a.count || a.value.localeCompare(b.value)` is
non-positive. -/
def statLe (a b : TextFieldValueStats) : Bool :=
  if a.count = b.count then localeCompare a.value b.value ≠ .gt
  else b.count < a.count

/-- Boolean order of the per-field sort by title (`localeCompare`
non-positive). -/
def textStatLe (a b : TextFieldStats) : Bool :=
  localeCompare a.title b.title ≠ .gt

/-- Boolean order of the numeric per-field sort by title. -/
def numStatLe (a b : NumericFieldStats) : Bool :=
  localeCompare a.title b.title ≠ .gt

/-- Frequency entries of one field, sorted by descending count with
`localeCompare` ties, truncated to the first 5. -/
def topValuesOf (counts : List (String × Nat)) : List TextFieldValueStats :=
  (sortBy statLe
    (counts.map (fun p => { value := p.1, count := p.2 : TextFieldValueStats }))).take 5

/-- Body of `GET /api/inventories/:id/stats`. -/
structure StatsResponse where
  itemsCount : Nat
  numericFields : List NumericFieldStats
  textFields : List TextFieldStats
deriving DecidableEq, Repr

/-- Embedding of the `GET /api/inventories/:id/stats` handler; `none`
is the 404 on a missing inventory. -/
def computeStats (db : DB) (inventoryId : String) : Option StatsResponse :=
  match findInventory db inventoryId with
  | none => none
  | some _ =>
    let numericFields := sortBy numStatLe
      ((numericFold (numericRows db inventoryId)).map (fun p =>
        { fieldId := p.1
          title := p.2.title
          count := p.2.count
          min := p.2.min
          max := p.2.max
          avg := if p.2.count > 0 then (p.2.sum : Rat) / (p.2.count : Rat) else 0
          : NumericFieldStats }))
    let textFields := sortBy textStatLe
      ((textFold (textRows db inventoryId)).map (fun p =>
        { fieldId := p.1
          title := p.2.title
          topValues := topValuesOf p.2.counts : TextFieldStats }))
    some
      { itemsCount := itemsCountFor db inventoryId
        numericFields := numericFields
        textFields := textFields }

/-! ### Operation sequences -/

/-- Union of the modelled mutating operations, used to state properties
over arbitrary operation sequences. -/
inductive Op where
  | patchInv (inventoryId : String) (p : InventoryPatch)
  | patchIt (itemId : String) (p : ItemUpdatePayload)
  | repFields (inventoryId : String) (payload : Option (List InventoryFieldPayload))
  | repElements (inventoryId : String) (payload : Option (List CustomIdElementPayload))
  | createIt (env : GenEnv) (inventoryId : String) (customId : Option String)
      (email : Option String)

/-- State reached after one operation (the response is discarded). -/
def applyOp (db : DB) : Op → DB
  | .patchInv i p => (patchInventory db i p).2
  | .patchIt i p => (patchItem db i p).2
  | .repFields i pl => (replaceFields db i pl).2
  | .repElements i pl => (replaceCustomIdElements db i pl).2
  | .createIt env i c e => (createItem env db i c e).2

/-- State reached after a sequence of operations. -/
def applyOps (db : DB) (ops : List Op) : DB := ops.foldl applyOp db

/-! ### Concrete fixtures used by the witnesses and counterexamples -/

/-- Demo principal present in every fixture. -/
def demoUser : User := { id := "u1", email := "demo@example.com", name := some "Demo" }

/-- Fixture inventory at version 1. -/
def inv1 : Inventory :=
  { id := "inv1", title := "Tools", description := none, category := .EQUIPMENT,
    isPublic := true, imageUrl := none, version := 1 }

/-- Fixture single-line text field of `inv1`. -/
def fieldName : InventoryField :=
  { id := "f1", inventoryId := "inv1", type := .SINGLE_LINE_TEXT, title := "Name",
    description := none, showInTable := true, orderIndex := 0 }

/-- Fixture item whose stored version is 4. -/
def itemV4 : Item :=
  { id := "it1", inventoryId := "inv1", customId := "A-1", version := 4,
    createdById := "u1" }

/-- Fixture field value of `itemV4`. -/
def valueV4 : ItemFieldValue :=
  { itemId := "it1", fieldId := "f1", valueString := some "hello",
    valueNumber := none, valueBoolean := none, valueLink := none }

/-- Fixture state with one item at version 4 holding one field value. -/
def dbC1 : DB :=
  { users := [demoUser], inventories := [inv1], fields := [fieldName],
    items := [itemV4], fieldValues := [valueV4], elements := [], nextId := 10 }

/-- Payload entry setting only the string slot of a field value. -/
def strVal (fieldId s : String) : ItemFieldValuePayload :=
  { fieldId := fieldId, valueString := some s, valueNumber := none,
    valueBoolean := none, valueLink := none }

/-- Stale update of `itemV4` submitting version 3 and a changed value. -/
def pC1 : ItemUpdatePayload :=
  { customId := none, version := 3, fields := some [strVal "f1" "changed"] }

/-- Fixture item with `customId` `"A"`. -/
def itemA : Item :=
  { id := "itA", inventoryId := "inv1", customId := "A", version := 1,
    createdById := "u1" }

/-- Fixture item with `customId` `"B"`. -/
def itemB : Item :=
  { id := "itB", inventoryId := "inv1", customId := "B", version := 1,
    createdById := "u1" }

/-- Fixture state with two items of the same inventory. -/
def dbAB : DB :=
  { users := [demoUser], inventories := [inv1], fields := [], items := [itemA, itemB],
    fieldValues := [], elements := [], nextId := 20 }

/-- Update of `itemB` whose submitted version matches but whose
`customId` collides with `itemA`. -/
def pDup : ItemUpdatePayload := { customId := some "A", version := 1, fields := none }

/-- Fixture number field of `inv1`. -/
def numField : InventoryField :=
  { id := "fn", inventoryId := "inv1", type := .NUMBER, title := "Amount",
    description := none, showInTable := true, orderIndex := 0 }

/-- Fixture item at version 1 with no stored values. -/
def itemV1 : Item :=
  { id := "it2", inventoryId := "inv1", customId := "C-1", version := 1,
    createdById := "u1" }

/-- Fixture state with one number field and one item. -/
def dbNum : DB :=
  { users := [demoUser], inventories := [inv1], fields := [numField],
    items := [itemV1], fieldValues := [], elements := [], nextId := 30 }

/-- Matching-version update naming a field id that exists nowhere. -/
def pUnknownField : ItemUpdatePayload :=
  { customId := none, version := 1, fields := some [strVal "zzz" "x"] }

/-- Matching-version update of the number field `fn` whose active
(numeric) slot is empty but whose string slot is set. -/
def pInactiveSlot : ItemUpdatePayload :=
  { customId := none, version := 1, fields := some [strVal "fn" "x"] }

/-- Payload field of type `NUMBER` with the given title and no client
`orderIndex`. -/
def numPayload (t : String) : InventoryFieldPayload :=
  { type := "NUMBER", title := t, description := none, showInTable := none,
    orderIndex := none }

/-- Submitted list with 4 fields of type `NUMBER`. -/
def fourNumbers : List InventoryFieldPayload :=
  [numPayload "a", numPayload "b", numPayload "c", numPayload "d"]

/-- Payload field carrying a client-supplied `orderIndex` of 5. -/
def fpIdx5 : InventoryFieldPayload :=
  { type := "NUMBER", title := "Price", description := none, showInTable := none,
    orderIndex := some 5 }

/-- Fixture state with no fields, items or values. -/
def dbEmpty : DB :=
  { users := [demoUser], inventories := [inv1], fields := [], items := [],
    fieldValues := [], elements := [], nextId := 40 }

/-- Custom-id format of one `SEQUENCE` element with width 3. -/
def seqElement : CustomIdElement :=
  { id := "e1", inventoryId := "inv1", type := .SEQUENCE, orderIndex := 0,
    fixedText := none, numberWidth := some 3 }

/-- Fixture item constructor for the sequence fixture. -/
def seqItem (n : Nat) : Item :=
  { id := "s" ++ toString n, inventoryId := "inv1", customId := "c" ++ toString n,
    version := 1, createdById := "u1" }

/-- Fixture state holding 4 items and the width-3 sequence format. -/
def dbSeq : DB :=
  { users := [demoUser], inventories := [inv1], fields := [],
    items := [seqItem 1, seqItem 2, seqItem 3, seqItem 4], fieldValues := [],
    elements := [seqElement], nextId := 50 }

/-- Deterministic oracle used by the witnesses. -/
def env0 : GenEnv :=
  { draw := fun _ _ => 0, guid := fun _ => "", nowStr := "", fallbackSuffix := "" }

/-- Fixture text field of `inv1` for the statistics example. -/
def textField : InventoryField :=
  { id := "ft", inventoryId := "inv1", type := .SINGLE_LINE_TEXT, title := "Label",
    description := none, showInTable := true, orderIndex := 0 }

/-- Fixture text value of `textField` on the given item. -/
def textValue (itemId s : String) : ItemFieldValue :=
  { itemId := itemId, fieldId := "ft", valueString := some s, valueNumber := none,
    valueBoolean := none, valueLink := none }

/-- Fixture state with text values `"A"`, `"a "`, `"B"`, `"A"` on one
field across 4 items (the example of the claim). -/
def dbText : DB :=
  { users := [demoUser], inventories := [inv1], fields := [textField],
    items := [seqItem 1, seqItem 2, seqItem 3, seqItem 4],
    fieldValues := [textValue "s1" "A", textValue "s2" "a ", textValue "s3" "B",
      textValue "s4" "A"],
    elements := [], nextId := 60 }

/-- Inventory patch leaving every patchable column unspecified. -/
def pNoop : InventoryPatch :=
  { title := none, description := none, category := none, isPublic := none,
    imageUrl := none, version := 1 }

/-- Item update carrying only the (matching) version. -/
def pAllNone : ItemUpdatePayload :=
  { customId := none, version := 1, fields := none }

/-- Number of entries of a submitted field list parsing to one type. -/
def countType (t : InventoryFieldType) (fields : List InventoryFieldPayload) :
    Nat :=
  (fields.filter (fun f => parseFieldType f.type == some t)).length

/-- Trimmed, non-blank text values submitted for one field, in row
order: the sequence whose frequencies the statistics pass counts. -/
def trimmedTexts (rows : List (ItemFieldValue × InventoryField))
    (fid : String) : List String :=
  rows.filterMap (fun r =>
    let t := jsTrim (r.1.valueString.getD "")
    if r.1.fieldId = fid ∧ t ≠ "" then some t else none)

/-- Correctness of one frequency map against the sequence of values seen
so far: lookups count occurrences, every key was seen, keys are
distinct. -/
def CountsOk (counts : List (String × Nat)) (seen : List String) : Prop :=
  (∀ s, ((mapGet counts s).getD 0) = seen.count s) ∧
  (∀ e ∈ counts, e.1 ∈ seen) ∧
  (counts.map Prod.fst).Nodup

/-- Correctness of the whole text accumulator against the processed
rows. -/
def TextMapOk (m : List (String × TextAgg))
    (rows : List (ItemFieldValue × InventoryField)) : Prop :=
  ((m.map Prod.fst).Nodup) ∧
  ∀ fid,
    (match mapGet m fid with
     | none => trimmedTexts rows fid = []
     | some agg => CountsOk agg.counts (trimmedTexts rows fid))

/-- Text statistics actually produced for `dbText`: `"A"` twice, then
the tie `"a"`/`"B"` in locale order (`"a"` before `"B"`). -/
def textFieldExpected : TextFieldStats :=
  { fieldId := "ft", title := "Label",
    topValues := [⟨"A", 2⟩, ⟨"a", 1⟩, ⟨"B", 1⟩] }

/-- Full statistics response produced for `dbText`. -/
def statsExpected : StatsResponse :=
  { itemsCount := 4, numericFields := [], textFields := [textFieldExpected] }

/-! ### Lemmas about the sorting model -/

theorem insertLe_perm (le : α → α → Bool) (a : α) (l : List α) :
    List.Perm (insertLe le a l) (a :: l) := by
  induction l with
  | nil => exact List.Perm.refl _
  | cons b bs ih =>
    simp only [insertLe]
    by_cases h : le a b = true
    · rw [if_pos h]
    · rw [if_neg h]
      exact (ih.cons b).trans (List.Perm.swap a b bs)

theorem sortBy_perm (le : α → α → Bool) (l : List α) :
    List.Perm (sortBy le l) l := by
  induction l with
  | nil => exact List.Perm.refl _
  | cons a as ih =>
    exact (insertLe_perm le a (sortBy le as)).trans (ih.cons a)

theorem mem_insertLe {le : α → α → Bool} {a x : α} {l : List α} :
    x ∈ insertLe le a l ↔ x = a ∨ x ∈ l := by
  rw [(insertLe_perm le a l).mem_iff]
  simp

theorem pairwise_insertLe (le : α → α → Bool)
    (htrans : ∀ a b c, le a b = true → le b c = true → le a c = true)
    (htotal : ∀ a b, le a b = true ∨ le b a = true)
    (a : α) (l : List α) (h : l.Pairwise (fun x y => le x y = true)) :
    (insertLe le a l).Pairwise (fun x y => le x y = true) := by
  induction l with
  | nil => simp [insertLe]
  | cons b bs ih =>
    rcases h with _ | ⟨hb, hbs⟩
    simp only [insertLe]
    by_cases hab : le a b = true
    · rw [if_pos hab]
      refine List.Pairwise.cons ?_ (List.Pairwise.cons hb hbs)
      intro x hx
      rcases List.mem_cons.mp hx with rfl | hx
      · exact hab
      · exact htrans a b x hab (hb x hx)
    · have hba : le b a = true := by
        rcases htotal a b with h1 | h1
        · exact absurd h1 hab
        · exact h1
      rw [if_neg hab]
      refine List.Pairwise.cons ?_ (ih hbs)
      intro x hx
      rcases mem_insertLe.mp hx with rfl | hx
      · exact hba
      · exact hb x hx

theorem sortBy_sorted (le : α → α → Bool)
    (htrans : ∀ a b c, le a b = true → le b c = true → le a c = true)
    (htotal : ∀ a b, le a b = true ∨ le b a = true)
    (l : List α) : (sortBy le l).Pairwise (fun x y => le x y = true) := by
  induction l with
  | nil => simp [sortBy]
  | cons a as ih => exact pairwise_insertLe le htrans htotal a (sortBy le as) ih

/-! ### Lemmas about the collation model -/

theorem cmpNat_eq_iff {a b : Nat} : cmpNat a b = .eq ↔ a = b := by
  unfold cmpNat
  split_ifs <;> simp <;> omega

theorem cmpNat_swap (a b : Nat) : (cmpNat a b).swap = cmpNat b a := by
  unfold cmpNat
  split_ifs <;> first | rfl | (exfalso; omega)

theorem cmpNat_lt_trans {a b c : Nat} (h1 : cmpNat a b = .lt)
    (h2 : cmpNat b c = .lt) : cmpNat a c = .lt := by
  unfold cmpNat at *
  split_ifs at * <;> simp_all <;> omega

theorem cmpList_nat_eq_iff : ∀ x y : List Nat, cmpList cmpNat x y = .eq ↔ x = y := by
  intro x
  induction x with
  | nil => intro y; cases y <;> simp [cmpList]
  | cons a as ih =>
    intro y
    cases y with
    | nil => simp [cmpList]
    | cons b bs =>
      simp only [cmpList]
      cases h : cmpNat a b with
      | eq =>
        have hab : a = b := cmpNat_eq_iff.mp h
        simp [ih bs, hab]
      | lt =>
        simp only [List.cons.injEq]
        constructor
        · intro hc; cases hc
        · rintro ⟨rfl, rfl⟩
          rw [cmpNat_eq_iff.mpr rfl] at h
          cases h
      | gt =>
        simp only [List.cons.injEq]
        constructor
        · intro hc; cases hc
        · rintro ⟨rfl, rfl⟩
          rw [cmpNat_eq_iff.mpr rfl] at h
          cases h

theorem cmpList_nat_swap : ∀ x y : List Nat,
    (cmpList cmpNat x y).swap = cmpList cmpNat y x := by
  intro x
  induction x with
  | nil => intro y; cases y <;> simp [cmpList, Ordering.swap]
  | cons a as ih =>
    intro y
    cases y with
    | nil => simp [cmpList, Ordering.swap]
    | cons b bs =>
      simp only [cmpList]
      rw [← cmpNat_swap a b]
      cases cmpNat a b with
      | eq => simpa [Ordering.swap] using ih bs
      | lt => simp [Ordering.swap]
      | gt => simp [Ordering.swap]

theorem cmpList_nat_lt_trans : ∀ x y z : List Nat,
    cmpList cmpNat x y = .lt → cmpList cmpNat y z = .lt →
    cmpList cmpNat x z = .lt := by
  intro x
  induction x with
  | nil =>
    intro y z h1 h2
    cases y with
    | nil => exact h2
    | cons b bs => cases z with
      | nil => cases h2
      | cons c cs => simp [cmpList]
  | cons a as ih =>
    intro y z h1 h2
    cases y with
    | nil => cases h1
    | cons b bs =>
      cases z with
      | nil => cases h2
      | cons c cs =>
        simp only [cmpList] at *
        cases hab : cmpNat a b with
        | lt =>
          cases hbc : cmpNat b c with
          | lt => rw [cmpNat_lt_trans hab hbc]
          | eq =>
            have hb : b = c := cmpNat_eq_iff.mp hbc
            subst hb
            rw [hab]
          | gt => rw [hbc] at h2; exact Ordering.noConfusion h2
        | eq =>
          have hb : a = b := cmpNat_eq_iff.mp hab
          subst hb
          rw [hab] at h1
          cases hbc : cmpNat a c with
          | lt => rfl
          | eq => rw [hbc] at h2; exact ih bs cs h1 h2
          | gt => rw [hbc] at h2; exact Ordering.noConfusion h2
        | gt => rw [hab] at h1; exact Ordering.noConfusion h1

theorem localeCompare_eq_iff {a b : String} :
    localeCompare a b = .eq ↔
      primaryKey a = primaryKey b ∧ tertiaryKey a = tertiaryKey b := by
  unfold localeCompare
  cases h : cmpList cmpNat (primaryKey a) (primaryKey b) with
  | eq =>
    have hp := cmpList_nat_eq_iff (primaryKey a) (primaryKey b)
    simp [cmpList_nat_eq_iff, hp.mp h]
  | lt =>
    constructor
    · intro hc; cases hc
    · rintro ⟨hp, _⟩
      rw [hp, (cmpList_nat_eq_iff _ _).mpr rfl] at h
      cases h
  | gt =>
    constructor
    · intro hc; cases hc
    · rintro ⟨hp, _⟩
      rw [hp, (cmpList_nat_eq_iff _ _).mpr rfl] at h
      cases h

theorem localeCompare_swap (a b : String) :
    (localeCompare a b).swap = localeCompare b a := by
  unfold localeCompare
  rw [← cmpList_nat_swap (primaryKey a) (primaryKey b),
    ← cmpList_nat_swap (tertiaryKey a) (tertiaryKey b)]
  cases cmpList cmpNat (primaryKey a) (primaryKey b) <;> simp [Ordering.swap]

theorem localeCompare_eq_subst {a b c : String}
    (h : localeCompare a b = .eq) :
    localeCompare a c = localeCompare b c := by
  rcases localeCompare_eq_iff.mp h with ⟨hp, ht⟩
  unfold localeCompare
  rw [hp, ht]

theorem localeCompare_lt_trans {a b c : String}
    (h1 : localeCompare a b = .lt) (h2 : localeCompare b c = .lt) :
    localeCompare a c = .lt := by
  unfold localeCompare at *
  cases hab : cmpList cmpNat (primaryKey a) (primaryKey b) with
  | lt =>
    cases hbc : cmpList cmpNat (primaryKey b) (primaryKey c) with
    | lt => rw [cmpList_nat_lt_trans _ _ _ hab hbc]
    | eq =>
      have : primaryKey b = primaryKey c := cmpList_nat_eq_iff _ _ |>.mp hbc
      rw [← this, hab]
    | gt => rw [hbc] at h2; cases h2
  | eq =>
    have hpeq : primaryKey a = primaryKey b := cmpList_nat_eq_iff _ _ |>.mp hab
    rw [hab] at h1
    cases hbc : cmpList cmpNat (primaryKey b) (primaryKey c) with
    | lt => rw [hpeq, hbc]
    | eq =>
      rw [hbc] at h2
      rw [hpeq, hbc]
      exact cmpList_nat_lt_trans _ _ _ h1 h2
    | gt => rw [hbc] at h2; cases h2
  | gt => rw [hab] at h1; cases h1

theorem lcLe_total (a b : String) :
    localeCompare a b ≠ .gt ∨ localeCompare b a ≠ .gt := by
  cases h : localeCompare a b with
  | lt => left; simp [h]
  | eq => left; simp [h]
  | gt =>
    right
    have := localeCompare_swap a b
    rw [h] at this
    rw [← this]
    simp [Ordering.swap]

theorem localeCompare_eq_subst_right {a b c : String}
    (h : localeCompare b c = .eq) :
    localeCompare a b = localeCompare a c := by
  rcases localeCompare_eq_iff.mp h with ⟨hp, ht⟩
  unfold localeCompare
  rw [hp, ht]

theorem lcLe_trans {a b c : String} (h1 : localeCompare a b ≠ .gt)
    (h2 : localeCompare b c ≠ .gt) : localeCompare a c ≠ .gt := by
  cases hab : localeCompare a b with
  | gt => exact absurd hab h1
  | eq => rw [localeCompare_eq_subst hab]; exact h2
  | lt =>
    cases hbc : localeCompare b c with
    | gt => exact absurd hbc h2
    | eq =>
      rw [← localeCompare_eq_subst_right hbc, hab]
      simp
    | lt =>
      rw [localeCompare_lt_trans hab hbc]
      simp

theorem fieldOrderLe_trans (a b c : InventoryField) :
    fieldOrderLe a b = true → fieldOrderLe b c = true →
    fieldOrderLe a c = true := by
  simp only [fieldOrderLe, decide_eq_true_eq]
  omega

theorem fieldOrderLe_total (a b : InventoryField) :
    fieldOrderLe a b = true ∨ fieldOrderLe b a = true := by
  simp only [fieldOrderLe, decide_eq_true_eq]
  omega

theorem statLe_iff {a b : TextFieldValueStats} :
    statLe a b = true ↔
      (a.count = b.count ∧ localeCompare a.value b.value ≠ .gt) ∨
      (a.count ≠ b.count ∧ b.count < a.count) := by
  unfold statLe
  split_ifs with h <;> simp [h]

theorem statLe_trans (a b c : TextFieldValueStats) :
    statLe a b = true → statLe b c = true → statLe a c = true := by
  intro h1 h2
  rcases statLe_iff.mp h1 with ⟨e1, l1⟩ | ⟨n1, g1⟩ <;>
    rcases statLe_iff.mp h2 with ⟨e2, l2⟩ | ⟨n2, g2⟩ <;>
    apply statLe_iff.mpr
  · exact Or.inl ⟨e1.trans e2, lcLe_trans l1 l2⟩
  · exact Or.inr ⟨by omega, by omega⟩
  · exact Or.inr ⟨by omega, by omega⟩
  · exact Or.inr ⟨by omega, by omega⟩

theorem statLe_total (a b : TextFieldValueStats) :
    statLe a b = true ∨ statLe b a = true := by
  by_cases h : a.count = b.count
  · rcases lcLe_total a.value b.value with hl | hl
    · exact Or.inl (statLe_iff.mpr (Or.inl ⟨h, hl⟩))
    · exact Or.inr (statLe_iff.mpr (Or.inl ⟨h.symm, hl⟩))
  · by_cases hlt : b.count < a.count
    · exact Or.inl (statLe_iff.mpr (Or.inr ⟨h, hlt⟩))
    · refine Or.inr (statLe_iff.mpr (Or.inr ⟨fun e => h e.symm, by omega⟩))

theorem textStatLe_trans (a b c : TextFieldStats) :
    textStatLe a b = true → textStatLe b c = true → textStatLe a c = true := by
  simp only [textStatLe, decide_eq_true_eq]
  exact lcLe_trans

theorem textStatLe_total (a b : TextFieldStats) :
    textStatLe a b = true ∨ textStatLe b a = true := by
  simp only [textStatLe, decide_eq_true_eq]
  exact lcLe_total a.title b.title

/-! ### Lemmas about the insertion-ordered map model -/

theorem mapGet_mapSet_self (m : List (String × β)) (k : String) (v : β) :
    mapGet (mapSet m k v) k = some v := by
  unfold mapSet
  split_ifs with hany
  · induction m with
    | nil => cases hany
    | cons p ps ih =>
      by_cases hp : (p.1 == k) = true
      · simp [mapGet, List.find?, hp]
      · have hps : ps.any (fun q => q.1 == k) = true := by
          simp only [List.any_cons, hp, Bool.false_or] at hany
          exact hany
        simpa [mapGet, List.find?, hp] using ih hps
  · unfold mapGet
    rw [List.find?_append]
    have hnone : m.find? (fun p => p.1 == k) = none := by
      rw [List.find?_eq_none]
      intro x hx
      have := (List.any_eq_false (p := fun p => p.1 == k)).mp
        (Bool.not_eq_true _ ▸ (by simpa using hany)) x hx
      simpa using this
    simp [hnone, List.find?]

theorem mapGet_mapSet_other (m : List (String × β)) {k k2 : String} (v : β)
    (h : k2 ≠ k) : mapGet (mapSet m k v) k2 = mapGet m k2 := by
  have hkk2 : (k == k2) = false := by
    simp only [beq_eq_false_iff_ne, ne_eq]
    exact fun e => h e.symm
  unfold mapSet
  split_ifs with hany
  · clear hany
    induction m with
    | nil => rfl
    | cons p ps ih =>
      by_cases hp : (p.1 == k) = true
      · have hp1 : p.1 = k := by simpa using hp
        have hq2 : (p.1 == k2) = false := by rw [hp1]; exact hkk2
        simp only [List.map_cons, if_pos hp, mapGet, List.find?, hkk2, hq2]
        exact ih
      · by_cases hq : (p.1 == k2) = true
        · simp [mapGet, List.find?, hp, hq]
        · simp only [List.map_cons, if_neg hp, mapGet, List.find?, hq]
          exact ih
  · unfold mapGet
    rw [List.find?_append]
    have hs : [(k, v)].find? (fun p => p.1 == k2) = none := by
      simp [List.find?, hkk2]
    rw [hs]
    simp

theorem mem_mapSet {m : List (String × β)} {k : String} {v : β} {p : String × β}
    (h : p ∈ mapSet m k v) : p = (k, v) ∨ (p ∈ m ∧ p.1 ≠ k) := by
  unfold mapSet at h
  split_ifs at h with hany
  · rcases List.mem_map.mp h with ⟨q, hq, hfq⟩
    by_cases hqk : (q.1 == k) = true
    · left
      rw [if_pos hqk] at hfq
      exact hfq.symm
    · right
      rw [if_neg hqk] at hfq
      subst hfq
      exact ⟨hq, by simpa using hqk⟩
  · rcases List.mem_append.mp h with hm | hs
    · right
      refine ⟨hm, fun he => ?_⟩
      have : m.any (fun q => q.1 == k) = true :=
        List.any_eq_true.mpr ⟨p, hm, by simpa using he⟩
      exact absurd this (by simpa using hany)
    · left
      simpa using hs

theorem mapSet_fst_map (m : List (String × β)) (k : String) (v : β) :
    (mapSet m k v).map Prod.fst =
      if m.any (fun p => p.1 == k) then m.map Prod.fst
      else m.map Prod.fst ++ [k] := by
  unfold mapSet
  split_ifs with hany
  · rw [List.map_map]
    apply List.map_congr_left
    intro a _
    dsimp only [Function.comp]
    split_ifs with ha
    · have hak : a.1 = k := by simpa using ha
      exact hak.symm
    · rfl
  · simp

theorem mapSet_fst_nodup {m : List (String × β)} (k : String) (v : β)
    (h : (m.map Prod.fst).Nodup) : ((mapSet m k v).map Prod.fst).Nodup := by
  rw [mapSet_fst_map]
  split_ifs with hany
  · exact h
  · rw [List.nodup_append]
    refine ⟨h, List.nodup_singleton k, ?_⟩
    intro a ha hk
    rcases List.mem_map.mp ha with ⟨q, hq, rfl⟩
    have hak : q.1 = k := by simpa using hk
    have : m.any (fun p => p.1 == k) = true :=
      List.any_eq_true.mpr ⟨q, hq, by simpa using hak⟩
    exact absurd this (by simpa using hany)

theorem mapGet_of_mem_nodup {m : List (String × β)} {p : String × β}
    (hnd : (m.map Prod.fst).Nodup) (hm : p ∈ m) :
    mapGet m p.1 = some p.2 := by
  induction m with
  | nil => cases hm
  | cons q qs ih =>
    rcases List.mem_cons.mp hm with rfl | hm2
    · simp [mapGet, List.find?]
    · have hq1 : (q.1 == p.1) = false := by
        simp only [List.map_cons, List.nodup_cons] at hnd
        have : p.1 ∈ qs.map Prod.fst := List.mem_map.mpr ⟨p, hm2, rfl⟩
        simp
        intro he
        exact hnd.1 (he ▸ this)
      have := ih (by
        simp only [List.map_cons, List.nodup_cons] at hnd
        exact hnd.2) hm2
      simpa [mapGet, List.find?, hq1] using this

/-! ### Lemmas about `mapIdxFrom` -/

theorem mapIdxFrom_map (f : Nat → α → β) (g : β → γ) :
    ∀ (i : Nat) (l : List α),
      (mapIdxFrom f i l).map g = mapIdxFrom (fun j a => g (f j a)) i l := by
  intro i l
  induction l generalizing i with
  | nil => rfl
  | cons a as ih => simp [mapIdxFrom, ih]

theorem mapIdxFrom_filter_true (f : Nat → α → β) (q : β → Bool)
    (h : ∀ i a, q (f i a) = true) :
    ∀ (i : Nat) (l : List α), (mapIdxFrom f i l).filter q = mapIdxFrom f i l := by
  intro i l
  induction l generalizing i with
  | nil => rfl
  | cons a as ih => simp [mapIdxFrom, List.filter, h, ih]

/-! ### Lemmas about row updates and lookups -/

theorem find?_map_update_self (l : List α) (q : α → Bool) (upd : α)
    (h : q upd = true) :
    (l.map (fun a => if q a then upd else a)).find? q =
      if l.any q then some upd else none := by
  induction l with
  | nil => rfl
  | cons a as ih =>
    by_cases ha : q a = true
    · simp [List.find?, ha, h]
    · simp only [List.map_cons, if_neg ha, List.find?, ha, List.any_cons,
        Bool.false_or]
      simpa [ha] using ih

theorem find?_map_update_other (l : List α) (q t : α → Bool) (upd : α)
    (hdisj : ∀ a, t a = true → q a = false) (hupd : q upd = false) :
    (l.map (fun a => if t a then upd else a)).find? q = l.find? q := by
  induction l with
  | nil => rfl
  | cons a as ih =>
    by_cases ha : t a = true
    · have hq : q a = false := hdisj a ha
      simp [List.find?, ha, hupd, hq, ih]
    · by_cases hq : q a = true
      · simp [List.find?, ha, hq]
      · simp [List.find?, ha, hq, ih]

/-! ### Frame lemmas: tables each handler leaves untouched -/

theorem patchInventory_frame (db : DB) (i : String) (p : InventoryPatch) :
    (patchInventory db i p).2 =
      { db with inventories := (patchInventory db i p).2.inventories } := by
  unfold patchInventory
  repeat first | rfl | split | dsimp only

theorem patchItem_frame (db : DB) (i : String) (p : ItemUpdatePayload) :
    (patchItem db i p).2 =
      { db with
        items := (patchItem db i p).2.items
        fieldValues := (patchItem db i p).2.fieldValues } := by
  unfold patchItem
  repeat first | rfl | split | dsimp only

theorem replaceFields_frame (db : DB) (i : String)
    (pl : Option (List InventoryFieldPayload)) :
    (replaceFields db i pl).2 =
      { db with
        fields := (replaceFields db i pl).2.fields
        fieldValues := (replaceFields db i pl).2.fieldValues
        nextId := (replaceFields db i pl).2.nextId } := by
  unfold replaceFields
  repeat first | rfl | split | dsimp only

theorem replaceCustomIdElements_frame (db : DB) (i : String)
    (pl : Option (List CustomIdElementPayload)) :
    (replaceCustomIdElements db i pl).2 =
      { db with
        elements := (replaceCustomIdElements db i pl).2.elements
        nextId := (replaceCustomIdElements db i pl).2.nextId } := by
  unfold replaceCustomIdElements
  repeat first | rfl | split | dsimp only

theorem createItem_frame (env : GenEnv) (db : DB) (i : String)
    (c e : Option String) :
    (createItem env db i c e).2 =
      { db with
        items := (createItem env db i c e).2.items
        nextId := (createItem env db i c e).2.nextId } := by
  unfold createItem
  repeat first | rfl | split | dsimp only

/-! ### Inversion of the accepted update branches -/

theorem patchInventory_ok {db : DB} {i : String} {p : InventoryPatch}
    {view : InventoryView} {db2 : DB}
    (h : patchInventory db i p = (.ok view, db2)) :
    ∃ cur, findInventory db i = some cur ∧ p.version = cur.version ∧
      view = inventoryView (applyInventoryPatch cur p) ∧
      db2 = { db with inventories :=
        updateInventoryRows db.inventories i (applyInventoryPatch cur p) } := by
  unfold patchInventory at h
  cases hf : findInventory db i with
  | none => rw [hf] at h; simp at h
  | some cur =>
    rw [hf] at h
    dsimp only at h
    by_cases hv : p.version ≠ cur.version
    · rw [if_pos hv] at h; simp at h
    · rw [if_neg hv] at h
      obtain ⟨h1, h2⟩ := Prod.mk.injEq .. |>.mp h
      injection h1 with hview
      exact ⟨cur, rfl, not_not.mp hv, hview.symm, h2.symm⟩

theorem patchItem_ok {db : DB} {itemId : String} {p : ItemUpdatePayload}
    {view : ItemView} {db2 : DB}
    (h : patchItem db itemId p = (.ok view, db2)) :
    ∃ cur, findItem db itemId = some cur ∧ p.version = cur.version ∧
      hasDuplicateCustomId db cur (p.customId.getD cur.customId) = false ∧
      db2.items = updateItemRows db.items itemId
        (applyItemPatch cur (p.customId.getD cur.customId)) ∧
      view = itemView db2 (applyItemPatch cur (p.customId.getD cur.customId)) ∧
      (p.fields = none → db2.fieldValues = db.fieldValues) ∧
      (∀ fs, p.fields = some fs →
        db2.fieldValues = db.fieldValues.filter (fun v => v.itemId ≠ itemId) ++
          ((fs.map sanitizeFieldValue).filter hasNonNullSlot).map
            (payloadValue itemId)) := by
  unfold patchItem at h
  cases hf : findItem db itemId with
  | none => rw [hf] at h; simp at h
  | some cur =>
    rw [hf] at h
    dsimp only at h
    by_cases hv : p.version ≠ cur.version
    · rw [if_pos hv] at h; simp at h
    · rw [if_neg hv] at h
      by_cases hdup :
          hasDuplicateCustomId db cur (p.customId.getD cur.customId) = true
      · rw [if_pos hdup] at h; simp at h
      · rw [if_neg hdup] at h
        refine ⟨cur, rfl, not_not.mp hv, by simpa using hdup, ?_⟩
        cases hfs : p.fields with
        | none =>
          rw [hfs] at h
          dsimp only at h
          obtain ⟨h1, h2⟩ := Prod.mk.injEq .. |>.mp h
          injection h1 with hview
          subst h2
          exact ⟨rfl, hview.symm, fun _ => rfl, fun fs hc => Option.noConfusion hc⟩
        | some fs =>
          rw [hfs] at h
          dsimp only at h
          by_cases hfk : ((fs.map sanitizeFieldValue).filter hasNonNullSlot).any
              (fun v => !(db.fields.any (fun f => f.id == v.fieldId))) = true
          · rw [if_pos hfk] at h; simp at h
          · rw [if_neg hfk] at h
            obtain ⟨h1, h2⟩ := Prod.mk.injEq .. |>.mp h
            injection h1 with hview
            subst h2
            refine ⟨rfl, hview.symm, fun hc => Option.noConfusion hc, ?_⟩
            intro fs2 hfs2
            injection hfs2 with hfs2
            subst hfs2
            rfl

/-! ### Version counters and their evolution -/

/-- Stored version of an inventory, read through `findUnique`. -/
def invVersionAt (db : DB) (inventoryId : String) : Option Int :=
  (findInventory db inventoryId).map (fun i => i.version)

/-- Stored version of an item, read through `findUnique`. -/
def itemVersionAt (db : DB) (itemId : String) : Option Int :=
  (findItem db itemId).map (fun i => i.version)

theorem find?_updateInventoryRows_self (rows : List Inventory) (i : String)
    (upd : Inventory) (h : upd.id = i)
    (hfound : (rows.find? (fun r => r.id == i)).isSome) :
    (updateInventoryRows rows i upd).find? (fun r => r.id == i) = some upd := by
  unfold updateInventoryRows
  rw [find?_map_update_self rows (fun r => r.id == i) upd (by simp [h])]
  have hany : rows.any (fun r => r.id == i) = true := by
    rcases Option.isSome_iff_exists.mp hfound with ⟨a, ha⟩
    exact List.any_eq_true.mpr ⟨a, List.mem_of_find?_eq_some ha,
      List.find?_some (p := fun r : Inventory => r.id == i) ha⟩
  rw [if_pos hany]

theorem find?_updateInventoryRows_other (rows : List Inventory) (i q : String)
    (upd : Inventory) (hne : q ≠ i) (h : upd.id = i) :
    (updateInventoryRows rows i upd).find? (fun r => r.id == q) =
      rows.find? (fun r => r.id == q) := by
  unfold updateInventoryRows
  apply find?_map_update_other
  · intro a ha
    have hai : a.id = i := by simpa using ha
    simp only [hai, beq_eq_false_iff_ne, ne_eq]
    exact fun e => hne e.symm
  · simp only [h, beq_eq_false_iff_ne, ne_eq]
    exact fun e => hne e.symm

theorem find?_updateItemRows_self (rows : List Item) (i : String)
    (upd : Item) (h : upd.id = i)
    (hfound : (rows.find? (fun r => r.id == i)).isSome) :
    (updateItemRows rows i upd).find? (fun r => r.id == i) = some upd := by
  unfold updateItemRows
  rw [find?_map_update_self rows (fun r => r.id == i) upd (by simp [h])]
  have hany : rows.any (fun r => r.id == i) = true := by
    rcases Option.isSome_iff_exists.mp hfound with ⟨a, ha⟩
    exact List.any_eq_true.mpr ⟨a, List.mem_of_find?_eq_some ha,
      List.find?_some (p := fun r : Item => r.id == i) ha⟩
  rw [if_pos hany]

theorem find?_updateItemRows_other (rows : List Item) (i q : String)
    (upd : Item) (hne : q ≠ i) (h : upd.id = i) :
    (updateItemRows rows i upd).find? (fun r => r.id == q) =
      rows.find? (fun r => r.id == q) := by
  unfold updateItemRows
  apply find?_map_update_other
  · intro a ha
    have hai : a.id = i := by simpa using ha
    simp only [hai, beq_eq_false_iff_ne, ne_eq]
    exact fun e => hne e.symm
  · simp only [h, beq_eq_false_iff_ne, ne_eq]
    exact fun e => hne e.symm

theorem patchInventory_db_cases (db : DB) (i : String) (p : InventoryPatch) :
    (patchInventory db i p).2 = db ∨
    ∃ view db2, patchInventory db i p = (.ok view, db2) := by
  unfold patchInventory
  cases findInventory db i with
  | none => left; rfl
  | some cur =>
    dsimp only
    by_cases hv : p.version ≠ cur.version
    · rw [if_pos hv]; left; rfl
    · rw [if_neg hv]; right; exact ⟨_, _, rfl⟩

theorem patchItem_db_cases (db : DB) (i : String) (p : ItemUpdatePayload) :
    (patchItem db i p).2 = db ∨
    ∃ view db2, patchItem db i p = (.ok view, db2) := by
  unfold patchItem
  cases findItem db i with
  | none => left; rfl
  | some cur =>
    dsimp only
    by_cases hv : p.version ≠ cur.version
    · rw [if_pos hv]; left; rfl
    · rw [if_neg hv]
      try dsimp only
      by_cases hdup :
          hasDuplicateCustomId db cur (p.customId.getD cur.customId) = true
      · rw [if_pos hdup]; left; rfl
      · rw [if_neg hdup]
        try dsimp only
        cases p.fields with
        | none => right; exact ⟨_, _, rfl⟩
        | some fs =>
          try dsimp only
          by_cases hfk : ((fs.map sanitizeFieldValue).filter hasNonNullSlot).any
              (fun v => !(db.fields.any (fun f => f.id == v.fieldId))) = true
          · rw [if_pos hfk]; left; rfl
          · rw [if_neg hfk]; right; exact ⟨_, _, rfl⟩

theorem createItem_db_cases (env : GenEnv) (db : DB) (i : String)
    (c e : Option String) :
    (createItem env db i c e).2 = db ∨
    ∃ item, (createItem env db i c e).2 =
      { db with items := db.items ++ [item], nextId := db.nextId + 1 } := by
  unfold createItem
  cases findInventory db i with
  | none => left; rfl
  | some inv =>
    dsimp only
    cases findUserByEmail db (resolveEmail e) with
    | none => left; rfl
    | some user =>
      try dsimp only
      by_cases hdup : db.items.any (fun it =>
          it.inventoryId == i &&
          it.customId == c.getD (generateCustomIdForInventory env db i)) = true
      · rw [if_pos hdup]; left; rfl
      · rw [if_neg hdup]; right; exact ⟨_, rfl⟩

theorem invVersionAt_mono_applyOp (db : DB) (op : Op) (q : String) (v : Int)
    (h : invVersionAt db q = some v) :
    ∃ w, invVersionAt (applyOp db op) q = some w ∧ v ≤ w := by
  cases op with
  | patchInv i p =>
    show ∃ w, invVersionAt (patchInventory db i p).2 q = some w ∧ v ≤ w
    rcases patchInventory_db_cases db i p with hsame | ⟨view, db2, hok⟩
    · rw [hsame]; exact ⟨v, h, le_refl v⟩
    · obtain ⟨cur, hf, hv, hview, hdb2⟩ := patchInventory_ok hok
      have hsnd : (patchInventory db i p).2 = db2 := by rw [hok]
      rw [hsnd, hdb2]
      by_cases hq : q = i
      · subst hq
        have hcurid : cur.id = q := by
          simpa using List.find?_some (p := fun r : Inventory => r.id == q) hf
        have hvv : v = cur.version := by
          unfold invVersionAt at h
          rw [hf] at h
          simp at h
          omega
        refine ⟨(applyInventoryPatch cur p).version, ?_, ?_⟩
        · unfold invVersionAt findInventory
          dsimp only
          rw [find?_updateInventoryRows_self db.inventories q
            (applyInventoryPatch cur p) hcurid
            (by unfold findInventory at hf; rw [hf]; rfl)]
          rfl
        · show v ≤ cur.version + 1
          omega
      · refine ⟨v, ?_, le_refl v⟩
        unfold invVersionAt findInventory at h ⊢
        dsimp only
        rw [find?_updateInventoryRows_other db.inventories i q
          (applyInventoryPatch cur p) hq
          (by simpa using
            List.find?_some (p := fun r : Inventory => r.id == i) hf)]
        exact h
  | patchIt i p =>
    have hinv : (patchItem db i p).2.inventories = db.inventories := by
      rw [patchItem_frame]
    refine ⟨v, ?_, le_refl v⟩
    show invVersionAt (patchItem db i p).2 q = some v
    unfold invVersionAt findInventory at h ⊢
    rw [hinv]
    exact h
  | repFields i pl =>
    have hinv : (replaceFields db i pl).2.inventories = db.inventories := by
      rw [replaceFields_frame]
    refine ⟨v, ?_, le_refl v⟩
    show invVersionAt (replaceFields db i pl).2 q = some v
    unfold invVersionAt findInventory at h ⊢
    rw [hinv]
    exact h
  | repElements i pl =>
    have hinv : (replaceCustomIdElements db i pl).2.inventories =
        db.inventories := by
      rw [replaceCustomIdElements_frame]
    refine ⟨v, ?_, le_refl v⟩
    show invVersionAt (replaceCustomIdElements db i pl).2 q = some v
    unfold invVersionAt findInventory at h ⊢
    rw [hinv]
    exact h
  | createIt env i c e =>
    have hinv : (createItem env db i c e).2.inventories = db.inventories := by
      rw [createItem_frame]
    refine ⟨v, ?_, le_refl v⟩
    show invVersionAt (createItem env db i c e).2 q = some v
    unfold invVersionAt findInventory at h ⊢
    rw [hinv]
    exact h

theorem itemVersionAt_mono_applyOp (db : DB) (op : Op) (q : String) (v : Int)
    (h : itemVersionAt db q = some v) :
    ∃ w, itemVersionAt (applyOp db op) q = some w ∧ v ≤ w := by
  cases op with
  | patchInv i p =>
    have hit : (patchInventory db i p).2.items = db.items := by
      rw [patchInventory_frame]
    refine ⟨v, ?_, le_refl v⟩
    show itemVersionAt (patchInventory db i p).2 q = some v
    unfold itemVersionAt findItem at h ⊢
    rw [hit]
    exact h
  | repFields i pl =>
    have hit : (replaceFields db i pl).2.items = db.items := by
      rw [replaceFields_frame]
    refine ⟨v, ?_, le_refl v⟩
    show itemVersionAt (replaceFields db i pl).2 q = some v
    unfold itemVersionAt findItem at h ⊢
    rw [hit]
    exact h
  | repElements i pl =>
    have hit : (replaceCustomIdElements db i pl).2.items = db.items := by
      rw [replaceCustomIdElements_frame]
    refine ⟨v, ?_, le_refl v⟩
    show itemVersionAt (replaceCustomIdElements db i pl).2 q = some v
    unfold itemVersionAt findItem at h ⊢
    rw [hit]
    exact h
  | patchIt i p =>
    show ∃ w, itemVersionAt (patchItem db i p).2 q = some w ∧ v ≤ w
    rcases patchItem_db_cases db i p with hsame | ⟨view, db2, hok⟩
    · rw [hsame]; exact ⟨v, h, le_refl v⟩
    · obtain ⟨cur, hf, hv, hdup, hitems, hview, hnone2, hsome2⟩ :=
        patchItem_ok hok
      have hsnd : (patchItem db i p).2 = db2 := by rw [hok]
      rw [hsnd]
      by_cases hq : q = i
      · subst hq
        have hcurid : cur.id = q := by
          simpa using List.find?_some (p := fun r : Item => r.id == q) hf
        have hvv : v = cur.version := by
          unfold itemVersionAt at h
          rw [hf] at h
          simp at h
          omega
        refine ⟨(applyItemPatch cur (p.customId.getD cur.customId)).version,
          ?_, ?_⟩
        · unfold itemVersionAt findItem
          rw [hitems]
          rw [find?_updateItemRows_self db.items q
            (applyItemPatch cur (p.customId.getD cur.customId)) hcurid
            (by unfold findItem at hf; rw [hf]; rfl)]
          rfl
        · show v ≤ cur.version + 1
          omega
      · refine ⟨v, ?_, le_refl v⟩
        unfold itemVersionAt findItem at h ⊢
        rw [hitems]
        rw [find?_updateItemRows_other db.items i q
          (applyItemPatch cur (p.customId.getD cur.customId)) hq
          (by simpa using List.find?_some (p := fun r : Item => r.id == i) hf)]
        exact h
  | createIt env i c e =>
    show ∃ w, itemVersionAt (createItem env db i c e).2 q = some w ∧ v ≤ w
    rcases createItem_db_cases env db i c e with hsame | ⟨item, hshape⟩
    · rw [hsame]; exact ⟨v, h, le_refl v⟩
    · rw [hshape]
      refine ⟨v, ?_, le_refl v⟩
      unfold itemVersionAt findItem at h ⊢
      dsimp only
      rw [List.find?_append]
      cases hfq : db.items.find? (fun r => r.id == q) with
      | none => rw [hfq] at h; simp at h
      | some it =>
        rw [hfq] at h
        exact h

theorem invVersionAt_mono_applyOps (ops : List Op) (db : DB) (q : String)
    (v : Int) (h : invVersionAt db q = some v) :
    ∃ w, invVersionAt (applyOps db ops) q = some w ∧ v ≤ w := by
  induction ops generalizing db v with
  | nil => exact ⟨v, h, le_refl v⟩
  | cons op rest ih =>
    obtain ⟨w1, hw1, hle1⟩ := invVersionAt_mono_applyOp db op q v h
    obtain ⟨w2, hw2, hle2⟩ := ih (applyOp db op) w1 hw1
    exact ⟨w2, hw2, le_trans hle1 hle2⟩

theorem itemVersionAt_mono_applyOps (ops : List Op) (db : DB) (q : String)
    (v : Int) (h : itemVersionAt db q = some v) :
    ∃ w, itemVersionAt (applyOps db ops) q = some w ∧ v ≤ w := by
  induction ops generalizing db v with
  | nil => exact ⟨v, h, le_refl v⟩
  | cons op rest ih =>
    obtain ⟨w1, hw1, hle1⟩ := itemVersionAt_mono_applyOp db op q v h
    obtain ⟨w2, hw2, hle2⟩ := ih (applyOp db op) w1 hw1
    exact ⟨w2, hw2, le_trans hle1 hle2⟩

/-! ### Claim theorems -/

/-- C1: an item update whose submitted version differs from the item's
stored version fails with a version conflict whose payload is the full
current representation of the item (its stored version and its stored
field values included), and the database — in particular every Field
Value — is left unchanged. -/
theorem itemUpdate_version_conflict_pure (db : DB) (itemId : String)
    (p : ItemUpdatePayload) (cur : Item)
    (hf : findItem db itemId = some cur)
    (hv : p.version ≠ cur.version) :
    patchItem db itemId p =
      (.versionConflict "Item has been modified by someone else."
        (itemView db cur), db) ∧
    (itemView db cur).version = cur.version ∧
    (itemView db cur).fields = valuesFor db cur.id ∧
    (patchItem db itemId p).2.fieldValues = db.fieldValues := by
  have hmain : patchItem db itemId p =
      (.versionConflict "Item has been modified by someone else."
        (itemView db cur), db) := by
    unfold patchItem
    rw [hf]
    dsimp only
    rw [if_pos hv]
  exact ⟨hmain, rfl, rfl, by rw [hmain]⟩

/-- Witness for C1 at the spec's example: stored version 4, submitted
version 3; the conflict carries `current.version = 4` and the state
(hence every Field Value) is unchanged. -/
theorem itemUpdate_version_conflict_pure_witness :
    (patchItem dbC1 "it1" pC1 =
      (.versionConflict "Item has been modified by someone else."
        (itemView dbC1 itemV4), dbC1)) ∧
    (itemView dbC1 itemV4).version = 4 ∧
    pC1.version = 3 ∧
    (patchItem dbC1 "it1" pC1).2 = dbC1 := by
  have h := itemUpdate_version_conflict_pure dbC1 "it1" pC1 itemV4
    (by decide) (by decide)
  exact ⟨h.1, by decide, by decide, by rw [h.1]⟩

/-- C9: creating an item whose resolved customId (client supplied, or
composed when absent) collides with an existing
`(inventoryId, customId)` pair yields the uniqueness-conflict response —
distinguishable by message from a version conflict — and inserts no
item row. -/
theorem createItem_duplicate_rejected (env : GenEnv) (db : DB)
    (inventoryId : String) (c e : Option String) (inv : Inventory) (u : User)
    (hinv : findInventory db inventoryId = some inv)
    (hu : findUserByEmail db (resolveEmail e) = some u)
    (hdup : db.items.any (fun it => it.inventoryId == inventoryId &&
      it.customId == c.getD (generateCustomIdForInventory env db inventoryId))
      = true) :
    createItem env db inventoryId c e =
      (.uniqueConflict
        "Custom ID already exists in this inventory. Please choose another value.",
        db) ∧
    (createItem env db inventoryId c e).2.items = db.items ∧
    ("Custom ID already exists in this inventory. Please choose another value."
      : String) ≠ "Item has been modified by someone else." := by
  have hmain : createItem env db inventoryId c e =
      (.uniqueConflict
        "Custom ID already exists in this inventory. Please choose another value.",
        db) := by
    unfold createItem
    rw [hinv]
    dsimp only
    rw [hu]
    dsimp only
    rw [if_pos hdup]
  exact ⟨hmain, by rw [hmain], by decide⟩

/-- Witness for C9: creating an item with customId `"A"` in an
inventory already holding an item with customId `"A"` is rejected with
the uniqueness conflict and leaves the item table unchanged. -/
theorem createItem_duplicate_rejected_witness :
    createItem env0 dbAB "inv1" (some "A") none =
      (.uniqueConflict
        "Custom ID already exists in this inventory. Please choose another value.",
        dbAB) ∧
    (createItem env0 dbAB "inv1" (some "A") none).2.items = dbAB.items := by
  have h := createItem_duplicate_rejected env0 dbAB "inv1" (some "A") none
    inv1 demoUser (by decide) (by decide) (by decide)
  exact ⟨h.1, h.2.1⟩

/-- C10: an item update that passes the version check but submits a
customId colliding with another item of the same inventory fails with
the uniqueness conflict and rolls the whole transaction back: the
returned state is the input state, so the item's version is not
incremented and its previously persisted field values are unchanged. -/
theorem itemUpdate_duplicate_rolls_back (db : DB) (itemId : String)
    (p : ItemUpdatePayload) (cur : Item)
    (hf : findItem db itemId = some cur)
    (hv : p.version = cur.version)
    (hdup : hasDuplicateCustomId db cur (p.customId.getD cur.customId)
      = true) :
    patchItem db itemId p =
      (.uniqueConflict
        "Custom ID already exists in this inventory. Please choose another value.",
        db) ∧
    itemVersionAt (patchItem db itemId p).2 itemId = some cur.version ∧
    valuesFor (patchItem db itemId p).2 itemId = valuesFor db itemId := by
  have hmain : patchItem db itemId p =
      (.uniqueConflict
        "Custom ID already exists in this inventory. Please choose another value.",
        db) := by
    unfold patchItem
    rw [hf]
    dsimp only
    rw [if_neg (not_not.mpr hv)]
    try dsimp only
    rw [if_pos hdup]
  refine ⟨hmain, ?_, by rw [hmain]⟩
  rw [hmain]
  unfold itemVersionAt
  rw [hf]
  rfl

/-- Witness for C10: `itemB` (version 1) updated with matching version 1
and customId `"A"` (held by `itemA`) yields the uniqueness conflict, its
stored version stays 1 and its values are untouched. -/
theorem itemUpdate_duplicate_rolls_back_witness :
    patchItem dbAB "itB" pDup =
      (.uniqueConflict
        "Custom ID already exists in this inventory. Please choose another value.",
        dbAB) ∧
    itemVersionAt (patchItem dbAB "itB" pDup).2 "itB" = some 1 ∧
    valuesFor (patchItem dbAB "itB" pDup).2 "itB" = valuesFor dbAB "itB" := by
  have h := itemUpdate_duplicate_rolls_back dbAB "itB" pDup itemB
    (by decide) (by decide) (by decide)
  exact ⟨h.1, h.2.1, h.2.2⟩

/-- Counterexample to C2 as stated: the update of `itemB` submits
version 1, equal to its stored version, yet the operation returns a
uniqueness conflict (its customId `"A"` is held by `itemA`) and the
stored version stays 1 instead of incrementing to 2. -/
theorem version_match_without_increment :
    pDup.version = itemB.version ∧
    findItem dbAB "itB" = some itemB ∧
    patchItem dbAB "itB" pDup =
      (.uniqueConflict
        "Custom ID already exists in this inventory. Please choose another value.",
        dbAB) ∧
    itemVersionAt (patchItem dbAB "itB" pDup).2 "itB" = some 1 ∧
    ¬ itemVersionAt (patchItem dbAB "itB" pDup).2 "itB" = some (1 + 1) := by
  exact ⟨by decide, by decide, by decide, by decide, by decide⟩

/-- C2 (amended): on every update of an Inventory or an Item that
completes successfully (version match, and for items no uniqueness
conflict or storage failure), the stored version and the returned
version are the prior stored version plus exactly 1; and across any
sequence of the modelled operations no stored version ever decreases. -/
theorem version_semantics :
    (∀ db i p view db2, patchInventory db i p = (.ok view, db2) →
      ∃ cur, findInventory db i = some cur ∧
        view.version = cur.version + 1 ∧
        invVersionAt db2 i = some (cur.version + 1)) ∧
    (∀ db i p view db2, patchItem db i p = (.ok view, db2) →
      ∃ cur, findItem db i = some cur ∧
        view.version = cur.version + 1 ∧
        itemVersionAt db2 i = some (cur.version + 1)) ∧
    (∀ ops db q v, invVersionAt db q = some v →
      ∃ w, invVersionAt (applyOps db ops) q = some w ∧ v ≤ w) ∧
    (∀ ops db q v, itemVersionAt db q = some v →
      ∃ w, itemVersionAt (applyOps db ops) q = some w ∧ v ≤ w) := by
  refine ⟨?_, ?_, ?_, ?_⟩
  · intro db i p view db2 hok
    obtain ⟨cur, hf, hv, hview, hdb2⟩ := patchInventory_ok hok
    have hcurid : cur.id = i := by
      simpa using List.find?_some (p := fun r : Inventory => r.id == i) hf
    refine ⟨cur, hf, by rw [hview]; rfl, ?_⟩
    rw [hdb2]
    unfold invVersionAt findInventory
    dsimp only
    rw [find?_updateInventoryRows_self db.inventories i
      (applyInventoryPatch cur p) hcurid
      (by unfold findInventory at hf; rw [hf]; rfl)]
    rfl
  · intro db i p view db2 hok
    obtain ⟨cur, hf, hv, hdup, hitems, hview, _, _⟩ := patchItem_ok hok
    have hcurid : cur.id = i := by
      simpa using List.find?_some (p := fun r : Item => r.id == i) hf
    refine ⟨cur, hf, by rw [hview]; rfl, ?_⟩
    unfold itemVersionAt findItem
    rw [hitems]
    rw [find?_updateItemRows_self db.items i
      (applyItemPatch cur (p.customId.getD cur.customId)) hcurid
      (by unfold findItem at hf; rw [hf]; rfl)]
    rfl
  · intro ops db q v h
    exact invVersionAt_mono_applyOps ops db q v h
  · intro ops db q v h
    exact itemVersionAt_mono_applyOps ops db q v h

/-- Witness for C2 (amended): a no-op inventory patch at matching
version 1 stores version 2; a matching item update stores version 2; a
two-operation sequence never decreases either version. -/
theorem version_semantics_witness :
    (∃ cur, findInventory dbEmpty "inv1" = some cur ∧
      (inventoryView (applyInventoryPatch inv1 pNoop)).version =
        cur.version + 1 ∧
      invVersionAt (patchInventory dbEmpty "inv1" pNoop).2 "inv1" =
        some (cur.version + 1)) ∧
    (∃ cur, findItem dbNum "it2" = some cur ∧
      (itemView (patchItem dbNum "it2" pAllNone).2
        (applyItemPatch itemV1 "C-1")).version = cur.version + 1 ∧
      itemVersionAt (patchItem dbNum "it2" pAllNone).2 "it2" =
        some (cur.version + 1)) ∧
    (∃ w, invVersionAt (applyOps dbEmpty [Op.patchInv "inv1" pNoop]) "inv1" =
      some w ∧ (1 : Int) ≤ w) ∧
    (∃ w, itemVersionAt (applyOps dbNum [Op.patchIt "it2" pAllNone]) "it2" =
      some w ∧ (1 : Int) ≤ w) := by
  refine ⟨?_, ?_, ?_, ?_⟩
  · exact version_semantics.1 dbEmpty "inv1" pNoop
      (inventoryView (applyInventoryPatch inv1 pNoop))
      (patchInventory dbEmpty "inv1" pNoop).2 (by decide)
  · exact version_semantics.2.1 dbNum "it2" pAllNone
      (itemView (patchItem dbNum "it2" pAllNone).2 (applyItemPatch itemV1 "C-1"))
      (patchItem dbNum "it2" pAllNone).2 (by decide)
  · exact version_semantics.2.2.1 [Op.patchInv "inv1" pNoop] dbEmpty "inv1" 1
      (by decide)
  · exact version_semantics.2.2.2 [Op.patchIt "it2" pAllNone] dbNum "it2" 1
      (by decide)

/-- Joining a single part is that part. -/
theorem join_singleton (s : String) : String.join [s] = s := rfl

/-- C3: on every accepted update, each patch field that is unspecified
or omitted retains its prior stored value — title, description,
category, isPublic and imageUrl for inventories, customId for items. -/
theorem omitted_fields_retained :
    (∀ db i p view db2, patchInventory db i p = (.ok view, db2) →
      ∃ cur upd, findInventory db i = some cur ∧
        findInventory db2 i = some upd ∧
        (p.title = none → upd.title = cur.title) ∧
        (p.description = none → upd.description = cur.description) ∧
        (p.category = none → upd.category = cur.category) ∧
        (p.isPublic = none → upd.isPublic = cur.isPublic) ∧
        (p.imageUrl = none → upd.imageUrl = cur.imageUrl)) ∧
    (∀ db i p view db2, patchItem db i p = (.ok view, db2) →
      ∃ cur upd, findItem db i = some cur ∧ findItem db2 i = some upd ∧
        (p.customId = none → upd.customId = cur.customId)) := by
  constructor
  · intro db i p view db2 hok
    obtain ⟨cur, hf, hv, hview, hdb2⟩ := patchInventory_ok hok
    have hcurid : cur.id = i := by
      simpa using List.find?_some (p := fun r : Inventory => r.id == i) hf
    refine ⟨cur, applyInventoryPatch cur p, hf, ?_, ?_, ?_, ?_, ?_, ?_⟩
    · rw [hdb2]
      unfold findInventory
      dsimp only
      exact find?_updateInventoryRows_self db.inventories i _ hcurid
        (by unfold findInventory at hf; rw [hf]; rfl)
    · intro h0; simp [applyInventoryPatch, h0]
    · intro h0; simp [applyInventoryPatch, h0]
    · intro h0; simp [applyInventoryPatch, h0]
    · intro h0; simp [applyInventoryPatch, h0]
    · intro h0; simp [applyInventoryPatch, h0]
  · intro db i p view db2 hok
    obtain ⟨cur, hf, hv, hdup, hitems, hview, _, _⟩ := patchItem_ok hok
    have hcurid : cur.id = i := by
      simpa using List.find?_some (p := fun r : Item => r.id == i) hf
    refine ⟨cur, applyItemPatch cur (p.customId.getD cur.customId), hf, ?_, ?_⟩
    · unfold findItem
      rw [hitems]
      exact find?_updateItemRows_self db.items i _ hcurid
        (by unfold findItem at hf; rw [hf]; rfl)
    · intro h0; simp [applyItemPatch, h0]

/-- Witness for C3: an all-omitted inventory patch and an item update
without customId keep every prior value. -/
theorem omitted_fields_retained_witness :
    (∃ cur upd, findInventory dbEmpty "inv1" = some cur ∧
      findInventory (patchInventory dbEmpty "inv1" pNoop).2 "inv1" =
        some upd ∧
      (pNoop.title = none → upd.title = cur.title) ∧
      (pNoop.description = none → upd.description = cur.description) ∧
      (pNoop.category = none → upd.category = cur.category) ∧
      (pNoop.isPublic = none → upd.isPublic = cur.isPublic) ∧
      (pNoop.imageUrl = none → upd.imageUrl = cur.imageUrl)) ∧
    (∃ cur upd, findItem dbNum "it2" = some cur ∧
      findItem (patchItem dbNum "it2" pAllNone).2 "it2" = some upd ∧
      (pAllNone.customId = none → upd.customId = cur.customId)) := by
  constructor
  · exact omitted_fields_retained.1 dbEmpty "inv1" pNoop
      (inventoryView (applyInventoryPatch inv1 pNoop))
      (patchInventory dbEmpty "inv1" pNoop).2 (by decide)
  · exact omitted_fields_retained.2 dbNum "it2" pAllNone
      (itemView (patchItem dbNum "it2" pAllNone).2 (applyItemPatch itemV1 "C-1"))
      (patchItem dbNum "it2" pAllNone).2 (by decide)

/-- C7: whenever an inventory's custom-id format is a single SEQUENCE
element, composing emits the current item count plus 1, rendered in
decimal and zero-padded to numberWidth (6 when null). -/
theorem sequence_element_compose (env : GenEnv) (db : DB)
    (inventoryId : String) (e : CustomIdElement)
    (hml : sortElements (db.elements.filter
      (fun x => x.inventoryId == inventoryId)) = [e])
    (ht : e.type = .SEQUENCE) :
    generateCustomIdForInventory env db inventoryId =
      padStart (toString (itemsCountFor db inventoryId + 1))
        (e.numberWidth.getD 6) '0' := by
  unfold generateCustomIdForInventory
  rw [hml]
  rw [if_neg (by simp)]
  dsimp only [mapIdxFrom]
  rw [join_singleton]
  unfold renderElement
  rw [ht]

/-- Witness for C7 at the spec's example: width 3 and 4 stored items
yield `"005"`. -/
theorem sequence_element_compose_witness :
    generateCustomIdForInventory env0 dbSeq "inv1" = "005" ∧
    seqElement.numberWidth = some 3 ∧
    itemsCountFor dbSeq "inv1" = 4 := by
  have h := sequence_element_compose env0 dbSeq "inv1" seqElement
    (by decide) rfl
  exact ⟨h.trans (by decide), by decide, by decide⟩

/-- Passing the validation loop bounds every type's population by 3
minus the entering counters. -/
theorem validateFieldsAux_none_bound :
    ∀ (fields : List InventoryFieldPayload) (c : InventoryFieldType → Nat),
      (∀ t, c t ≤ 3) → validateFieldsAux c fields = none →
      ∀ t, c t + countType t fields ≤ 3 := by
  intro fields
  induction fields with
  | nil =>
    intro c hc _ t
    simpa [countType] using hc t
  | cons f rest ih =>
    intro c hc hval t
    unfold validateFieldsAux at hval
    cases hp : parseFieldType f.type with
    | none => rw [hp] at hval; cases hval
    | some tf =>
      rw [hp] at hval
      dsimp only at hval
      by_cases htitle : jsTrim f.title = ""
      · rw [if_pos htitle] at hval; cases hval
      · rw [if_neg htitle] at hval
        by_cases hcap : bumpCounter c tf tf > 3
        · rw [if_pos hcap] at hval; cases hval
        · rw [if_neg hcap] at hval
          have hc2 : ∀ u, bumpCounter c tf u ≤ 3 := by
            intro u
            unfold bumpCounter at hcap ⊢
            simp only [gt_iff_lt, not_lt] at hcap
            by_cases hu : u = tf
            · simp only [if_pos hu, hu]
              simpa using hcap
            · simp only [if_neg hu]
              exact hc u
          have hrest := ih (bumpCounter c tf) hc2 hval t
          unfold countType at hrest ⊢
          rw [List.filter_cons]
          by_cases hft : (parseFieldType f.type == some t) = true
          · have htf : tf = t := by
              rw [hp] at hft
              simpa using hft
            subst htf
            rw [if_pos hft]
            rw [List.length_cons]
            unfold bumpCounter at hrest
            simp at hrest
            omega
          · rw [if_neg (by simpa using hft)]
            have hbc : bumpCounter c tf t = c t := by
              unfold bumpCounter
              have hne : ¬ t = tf := by
                intro e
                apply hft
                rw [hp, e]
                simp
              simp [hne]
            rw [hbc] at hrest
            exact hrest

/-- A list with more than 3 entries of one recognised type cannot pass
validation. -/
theorem validateFields_cap (fields : List InventoryFieldPayload)
    (t : InventoryFieldType) (h : 3 < countType t fields) :
    ∃ msg, validateFields fields = some msg := by
  cases hval : validateFields fields with
  | some msg => exact ⟨msg, rfl⟩
  | none =>
    unfold validateFields at hval
    have hb := validateFieldsAux_none_bound fields zeroCounters
      (fun _ => by simp [zeroCounters]) hval t
    simp [zeroCounters] at hb
    omega

/-- C4: a replaceFields request whose list holds more than 3 fields of
one recognised type is rejected wholesale with a validation error, with
no partial write: the state is unchanged and re-reading the inventory's
fields returns the pre-change set. -/
theorem replaceFields_cap_rejected (db : DB) (inventoryId : String)
    (fields : List InventoryFieldPayload) (t : InventoryFieldType)
    (inv : Inventory)
    (hinv : findInventory db inventoryId = some inv)
    (hcap : 3 < countType t fields) :
    (∃ msg, replaceFields db inventoryId (some fields) =
      (.validationError msg, db)) ∧
    (replaceFields db inventoryId (some fields)).2 = db ∧
    fieldsFor (replaceFields db inventoryId (some fields)).2 inventoryId =
      fieldsFor db inventoryId := by
  have hne : fields ≠ [] := by
    intro h0
    rw [h0] at hcap
    simp [countType] at hcap
  obtain ⟨msg, hmsg⟩ := validateFields_cap fields t hcap
  have hmain : replaceFields db inventoryId (some fields) =
      (.validationError msg, db) := by
    unfold replaceFields
    rw [hinv]
    dsimp only [Option.getD]
    rw [if_neg (by
      cases fields with
      | nil => exact absurd rfl hne
      | cons a as => simp)]
    rw [hmsg]
  exact ⟨⟨msg, hmain⟩, by rw [hmain], by rw [hmain]⟩

/-- Witness for C4 at the spec's example: 4 fields of type NUMBER are
rejected and the prior field set is intact. -/
theorem replaceFields_cap_rejected_witness :
    (∃ msg, replaceFields dbNum "inv1" (some fourNumbers) =
      (.validationError msg, dbNum)) ∧
    (replaceFields dbNum "inv1" (some fourNumbers)).2 = dbNum ∧
    fieldsFor (replaceFields dbNum "inv1" (some fourNumbers)).2 "inv1" =
      fieldsFor dbNum "inv1" ∧
    countType .NUMBER fourNumbers = 4 := by
  have h := replaceFields_cap_rejected dbNum "inv1" fourNumbers .NUMBER inv1
    (by decide) (by decide)
  exact ⟨h.1, h.2.1, h.2.2, by decide⟩

/-- Inversion of the successful replaceFields branch. -/
theorem replaceFields_ok {db : DB} {inventoryId : String}
    {fields : List InventoryFieldPayload} {res : List InventoryField}
    {db2 : DB} (hne : fields ≠ [])
    (h : replaceFields db inventoryId (some fields) = (.ok res, db2)) :
    validateFields fields = none ∧
    db2 = { db with
      fields := db.fields.filter (fun f => f.inventoryId ≠ inventoryId) ++
        mapIdxFrom (fun index f =>
          sanitizeField inventoryId (freshId (db.nextId + index)) index f)
          0 fields
      fieldValues := db.fieldValues.filter
        (fun v => !(((fieldsFor db inventoryId).map (fun f => f.id)).contains
          v.fieldId))
      nextId := db.nextId + fields.length } ∧
    res = sortFields (fieldsFor db2 inventoryId) := by
  unfold replaceFields at h
  cases hf : findInventory db inventoryId with
  | none => rw [hf] at h; simp at h
  | some inv =>
    rw [hf] at h
    dsimp only [Option.getD] at h
    rw [if_neg (by
      cases fields with
      | nil => exact absurd rfl hne
      | cons a as => simp)] at h
    cases hval : validateFields fields with
    | some msg => rw [hval] at h; simp at h
    | none =>
      rw [hval] at h
      dsimp only at h
      obtain ⟨h1, h2⟩ := Prod.mk.injEq .. |>.mp h
      injection h1 with hres
      subst h2
      exact ⟨rfl, rfl, hres.symm⟩

/-- Counterexample to C5 as stated: a successful replaceFields with a
single submitted field carrying client `orderIndex = 5` stores
`orderIndex = 5`, not the position 0 the claim requires. -/
theorem replaceFields_client_orderIndex_kept :
    (fieldsFor (replaceFields dbEmpty "inv1" (some [fpIdx5])).2 "inv1").map
      (fun f => f.orderIndex) = [5] ∧
    fpIdx5.orderIndex = some 5 ∧
    ¬ (fieldsFor (replaceFields dbEmpty "inv1" (some [fpIdx5])).2 "inv1").map
      (fun f => f.orderIndex) = [0] := by
  exact ⟨by decide, by decide, by decide⟩

/-- C5 (amended): on every successful replaceFields, the prior fields
of the inventory are deleted together with their field values, the new
rows are inserted with fresh ids and an `orderIndex` equal to the
client-supplied value when one is a number and to the field's position
otherwise, and the stored result is returned sorted by `orderIndex`. -/
theorem replaceFields_success_semantics (db : DB) (inventoryId : String)
    (fields : List InventoryFieldPayload) (res : List InventoryField)
    (db2 : DB) (hne : fields ≠ [])
    (h : replaceFields db inventoryId (some fields) = (.ok res, db2)) :
    (∀ v ∈ db2.fieldValues,
      v.fieldId ∉ (fieldsFor db inventoryId).map (fun f => f.id)) ∧
    fieldsFor db2 inventoryId = mapIdxFrom (fun index f =>
      sanitizeField inventoryId (freshId (db.nextId + index)) index f)
      0 fields ∧
    (fieldsFor db2 inventoryId).map (fun f => f.orderIndex) =
      mapIdxFrom (fun index f => f.orderIndex.getD index) 0 fields ∧
    res = sortFields (fieldsFor db2 inventoryId) ∧
    res.Pairwise (fun a b => a.orderIndex ≤ b.orderIndex) ∧
    List.Perm res (fieldsFor db2 inventoryId) := by
  obtain ⟨hval, hdb2, hres⟩ := replaceFields_ok hne h
  have hfields2 : fieldsFor db2 inventoryId = mapIdxFrom (fun index f =>
      sanitizeField inventoryId (freshId (db.nextId + index)) index f)
      0 fields := by
    rw [hdb2]
    unfold fieldsFor
    dsimp only
    rw [List.filter_append]
    have hkept : (db.fields.filter
        (fun f => f.inventoryId ≠ inventoryId)).filter
        (fun f => f.inventoryId == inventoryId) = [] := by
      rw [List.filter_eq_nil_iff]
      intro a ha
      have h2 := (List.mem_filter.mp ha).2
      simp at h2
      simp [h2]
    rw [hkept, List.nil_append]
    apply mapIdxFrom_filter_true
    intro i a
    simp [sanitizeField]
  refine ⟨?_, hfields2, ?_, hres, ?_, ?_⟩
  · intro v hv
    rw [hdb2] at hv
    dsimp only at hv
    have h2 := (List.mem_filter.mp hv).2
    simpa using h2
  · rw [hfields2, mapIdxFrom_map]
    rfl
  · rw [hres]
    unfold sortFields
    exact (sortBy_sorted fieldOrderLe fieldOrderLe_trans fieldOrderLe_total
      _).imp (by intro a b hab; simpa [fieldOrderLe] using hab)
  · rw [hres]
    unfold sortFields
    exact sortBy_perm fieldOrderLe _

/-- Witness for C5 (amended): replacing the number field of `dbNum`
with two fields (one client orderIndex 5, one without) stores rows with
orderIndex 5 and 1, deletes the prior field's values, and returns the
rows sorted. -/
theorem replaceFields_success_semantics_witness :
    (∀ v ∈ (replaceFields dbNum "inv1" (some [fpIdx5, numPayload "q"])).2.fieldValues,
      v.fieldId ∉ (fieldsFor dbNum "inv1").map (fun f => f.id)) ∧
    (fieldsFor (replaceFields dbNum "inv1" (some [fpIdx5, numPayload "q"])).2
      "inv1").map (fun f => f.orderIndex) =
      mapIdxFrom (fun index f => f.orderIndex.getD index) 0
        [fpIdx5, numPayload "q"] ∧
    ((replaceFields dbNum "inv1" (some [fpIdx5, numPayload "q"])).1 =
      .ok (sortFields (fieldsFor
        (replaceFields dbNum "inv1" (some [fpIdx5, numPayload "q"])).2
        "inv1"))) := by
  have h := replaceFields_success_semantics dbNum "inv1"
    [fpIdx5, numPayload "q"]
    (sortFields (fieldsFor
      (replaceFields dbNum "inv1" (some [fpIdx5, numPayload "q"])).2 "inv1"))
    (replaceFields dbNum "inv1" (some [fpIdx5, numPayload "q"])).2
    (by decide) (by decide)
  exact ⟨h.1, h.2.2.1, by decide⟩

/-- Mapping then filtering with an always-true predicate keeps the
whole mapped list. -/
theorem filter_map_true (f : α → β) (q : β → Bool)
    (h : ∀ a, q (f a) = true) (l : List α) :
    (l.map f).filter q = l.map f := by
  induction l with
  | nil => rfl
  | cons a as ih => simp [List.filter_cons, h a, ih]

/-- Counterexample to C6 as stated: an item update naming a field id
that exists in no inventory is not dropped silently — the whole update
fails with a server error and nothing is written; and an entry for the
NUMBER field `fn` whose active (numeric) slot is empty but whose string
slot is set is persisted rather than skipped. -/
theorem fieldValue_entries_not_validated :
    (patchItem dbNum "it2" pUnknownField).1 =
      .serverError "Failed to update item" ∧
    (patchItem dbNum "it2" pUnknownField).2 = dbNum ∧
    numField.type = .NUMBER ∧
    (strVal "fn" "x").valueNumber = none ∧
    (patchItem dbNum "it2" pInactiveSlot).2.fieldValues =
      [payloadValue "it2" (strVal "fn" "x")] := by
  exact ⟨by decide, by decide, by decide, by decide, by decide⟩

/-- C6 (amended): submitted Field Value entries are not validated
against the item's inventory's Field set. If any non-empty sanitised
entry names a field id absent from the field table, the whole update
fails with a server error and the state is unchanged (the entry is not
dropped silently). On success with a submitted list, the item's stored
values become exactly the sanitised entries having at least one
non-null typed slot — so entries with all slots empty are not
persisted, and every previously persisted value of the item that is not
resubmitted with a non-empty slot is removed. -/
theorem itemUpdate_fieldValues_semantics :
    (∀ db itemId p cur fs,
      findItem db itemId = some cur →
      p.version = cur.version →
      hasDuplicateCustomId db cur (p.customId.getD cur.customId) = false →
      p.fields = some fs →
      ((fs.map sanitizeFieldValue).filter hasNonNullSlot).any
        (fun v => !(db.fields.any (fun f => f.id == v.fieldId))) = true →
      patchItem db itemId p = (.serverError "Failed to update item", db)) ∧
    (∀ db itemId p view db2 fs,
      patchItem db itemId p = (.ok view, db2) →
      p.fields = some fs →
      valuesFor db2 itemId =
        ((fs.map sanitizeFieldValue).filter hasNonNullSlot).map
          (payloadValue itemId)) := by
  constructor
  · intro db itemId p cur fs hf hv hdup hfs hbad
    unfold patchItem
    rw [hf]
    dsimp only
    rw [if_neg (not_not.mpr hv)]
    try dsimp only
    rw [if_neg (by simp [hdup])]
    try dsimp only
    rw [hfs]
    try dsimp only
    rw [if_pos hbad]
  · intro db itemId p view db2 fs hok hfs
    obtain ⟨cur, hf, hv, hdup, hitems, hview, hnone2, hsome2⟩ :=
      patchItem_ok hok
    have hfv := hsome2 fs hfs
    unfold valuesFor
    rw [hfv, List.filter_append]
    have h1 : (db.fieldValues.filter (fun v => v.itemId ≠ itemId)).filter
        (fun v => v.itemId == itemId) = [] := by
      rw [List.filter_eq_nil_iff]
      intro a ha
      have h2 := (List.mem_filter.mp ha).2
      simp at h2
      simp [h2]
    rw [h1, List.nil_append]
    apply filter_map_true
    intro a
    simp [payloadValue]

/-- Witness for C6 (amended): the unknown-field update of `dbNum` fails
with the server error and no change; the accepted update with a
string-slot entry stores exactly that entry. -/
theorem itemUpdate_fieldValues_semantics_witness :
    patchItem dbNum "it2" pUnknownField =
      (.serverError "Failed to update item", dbNum) ∧
    valuesFor (patchItem dbNum "it2" pInactiveSlot).2 "it2" =
      (([strVal "fn" "x"].map sanitizeFieldValue).filter hasNonNullSlot).map
        (payloadValue "it2") := by
  constructor
  · exact itemUpdate_fieldValues_semantics.1 dbNum "it2" pUnknownField itemV1
      [strVal "zzz" "x"] (by decide) (by decide) (by decide) (by decide)
      (by decide)
  · exact itemUpdate_fieldValues_semantics.2 dbNum "it2" pInactiveSlot
      (itemView (patchItem dbNum "it2" pInactiveSlot).2
        (applyItemPatch itemV1 "C-1"))
      (patchItem dbNum "it2" pInactiveSlot).2 [strVal "fn" "x"]
      (by decide) (by decide)

/-! ### Invariants of the text-statistics pass -/

theorem trimmedTexts_append (done : List (ItemFieldValue × InventoryField))
    (r : ItemFieldValue × InventoryField) (fid : String) :
    trimmedTexts (done ++ [r]) fid =
      trimmedTexts done fid ++
      (if r.1.fieldId = fid ∧ jsTrim (r.1.valueString.getD "") ≠ "" then
        [jsTrim (r.1.valueString.getD "")] else []) := by
  unfold trimmedTexts
  rw [List.filterMap_append]
  congr 1
  by_cases hc : r.1.fieldId = fid ∧ jsTrim (r.1.valueString.getD "") ≠ ""
  · simp only [List.filterMap_cons, List.filterMap_nil, if_pos hc]
  · simp only [List.filterMap_cons, List.filterMap_nil, if_neg hc]

theorem ne_empty_of_mem_trimmedTexts
    {rows : List (ItemFieldValue × InventoryField)} {fid x : String}
    (h : x ∈ trimmedTexts rows fid) : x ≠ "" := by
  unfold trimmedTexts at h
  obtain ⟨r, hr, heq⟩ := List.mem_filterMap.mp h
  dsimp only at heq
  split_ifs at heq with hc
  injection heq with heq
  rw [← heq]
  exact hc.2

theorem countsOk_nil : CountsOk [] [] := by
  refine ⟨fun s => by simp [mapGet], fun e he => absurd he (by simp), by simp⟩

theorem countsOk_bump {counts : List (String × Nat)} {seen : List String}
    (h : CountsOk counts seen) (s : String) :
    CountsOk (mapSet counts s (((mapGet counts s).getD 0) + 1))
      (seen ++ [s]) := by
  obtain ⟨hcount, hmem, hnd⟩ := h
  refine ⟨?_, ?_, mapSet_fst_nodup s _ hnd⟩
  · intro x
    by_cases hx : x = s
    · subst hx
      rw [mapGet_mapSet_self]
      simp only [Option.getD_some, List.count_append, hcount x]
      simp [List.count_cons]
    · rw [mapGet_mapSet_other _ _ hx]
      rw [hcount x]
      have hz : [s].count x = 0 := by
        rw [List.count_eq_zero]
        simp [hx]
      simp [List.count_append, hz]
  · intro e he
    rcases mem_mapSet he with rfl | ⟨hin, _⟩
    · exact List.mem_append_right _ (by simp)
    · exact List.mem_append_left _ (hmem e hin)

theorem textMapOk_nil : TextMapOk [] [] := by
  refine ⟨by simp, fun fid => ?_⟩
  show trimmedTexts [] fid = []
  rfl

theorem textStep_ok {m : List (String × TextAgg)}
    {done : List (ItemFieldValue × InventoryField)}
    (h : TextMapOk m done) (r : ItemFieldValue × InventoryField) :
    TextMapOk (textStep m r) (done ++ [r]) := by
  obtain ⟨hnd, hok⟩ := h
  unfold textStep
  by_cases ht : jsTrim (r.1.valueString.getD "") = ""
  · rw [if_pos ht]
    refine ⟨hnd, fun fid => ?_⟩
    cases hget : mapGet m fid with
    | none =>
      have hold := hok fid
      rw [hget] at hold
      rw [trimmedTexts_append, if_neg (fun hc => hc.2 ht), List.append_nil]
      exact hold
    | some agg =>
      have hold := hok fid
      rw [hget] at hold
      rw [trimmedTexts_append, if_neg (fun hc => hc.2 ht), List.append_nil]
      exact hold
  · rw [if_neg ht]
    cases hget : mapGet m r.1.fieldId with
    | none =>
      refine ⟨mapSet_fst_nodup _ _ hnd, fun fid => ?_⟩
      by_cases hfid : fid = r.1.fieldId
      · subst hfid
        rw [mapGet_mapSet_self]
        have hold := hok r.1.fieldId
        rw [hget] at hold
        show CountsOk [(jsTrim (r.1.valueString.getD ""), 1)]
          (trimmedTexts (done ++ [r]) r.1.fieldId)
        rw [trimmedTexts_append, if_pos ⟨rfl, ht⟩, hold, List.nil_append]
        exact countsOk_bump countsOk_nil (jsTrim (r.1.valueString.getD ""))
      · rw [mapGet_mapSet_other _ _ hfid]
        cases hget2 : mapGet m fid with
        | none =>
          have hold := hok fid
          rw [hget2] at hold
          rw [trimmedTexts_append, if_neg (fun hc => hfid hc.1.symm),
            List.append_nil]
          exact hold
        | some agg =>
          have hold := hok fid
          rw [hget2] at hold
          rw [trimmedTexts_append, if_neg (fun hc => hfid hc.1.symm),
            List.append_nil]
          exact hold
    | some agg =>
      refine ⟨mapSet_fst_nodup _ _ hnd, fun fid => ?_⟩
      by_cases hfid : fid = r.1.fieldId
      · subst hfid
        rw [mapGet_mapSet_self]
        have hold := hok r.1.fieldId
        rw [hget] at hold
        show CountsOk (mapSet agg.counts (jsTrim (r.1.valueString.getD ""))
          (((mapGet agg.counts (jsTrim (r.1.valueString.getD ""))).getD 0) + 1))
          (trimmedTexts (done ++ [r]) r.1.fieldId)
        rw [trimmedTexts_append, if_pos ⟨rfl, ht⟩]
        exact countsOk_bump hold (jsTrim (r.1.valueString.getD ""))
      · rw [mapGet_mapSet_other _ _ hfid]
        cases hget2 : mapGet m fid with
        | none =>
          have hold := hok fid
          rw [hget2] at hold
          rw [trimmedTexts_append, if_neg (fun hc => hfid hc.1.symm),
            List.append_nil]
          exact hold
        | some agg2 =>
          have hold := hok fid
          rw [hget2] at hold
          rw [trimmedTexts_append, if_neg (fun hc => hfid hc.1.symm),
            List.append_nil]
          exact hold

theorem textFold_aux :
    ∀ (rows : List (ItemFieldValue × InventoryField))
      (m : List (String × TextAgg))
      (done : List (ItemFieldValue × InventoryField)),
      TextMapOk m done →
      TextMapOk (rows.foldl textStep m) (done ++ rows) := by
  intro rows
  induction rows with
  | nil =>
    intro m done h
    simpa using h
  | cons r rest ih =>
    intro m done h
    have h3 := ih (textStep m r) (done ++ [r]) (textStep_ok h r)
    have he : (done ++ [r]) ++ rest = done ++ (r :: rest) := by simp
    rw [he] at h3
    exact h3

theorem textFold_ok (rows : List (ItemFieldValue × InventoryField)) :
    TextMapOk (textFold rows) rows := by
  have h := textFold_aux rows [] [] textMapOk_nil
  simpa [textFold] using h

/-- Shape of the text part of a statistics response. -/
theorem computeStats_some {db : DB} {inventoryId : String}
    {stats : StatsResponse}
    (h : computeStats db inventoryId = some stats) :
    stats.textFields = sortBy textStatLe
      ((textFold (textRows db inventoryId)).map (fun p =>
        { fieldId := p.1, title := p.2.title,
          topValues := topValuesOf p.2.counts : TextFieldStats })) := by
  unfold computeStats at h
  cases hf : findInventory db inventoryId with
  | none => rw [hf] at h; cases h
  | some inv =>
    rw [hf] at h
    dsimp only at h
    injection h with h
    rw [← h]

/-- Counterexample to C8 as stated: for the text values
`["A", "a ", "B", "A"]` the handler reports `"A":2`, then `"a":1`
before `"B":1` — the tie is broken by `localeCompare` (locale order,
`"a"` before `"B"`), not by code-unit lexicographic order, so the
claimed output with `"B":1` before `"a":1` does not occur. -/
theorem textStats_tie_break_locale :
    (computeStats dbText "inv1").map
      (fun s => s.textFields.map (fun t => t.topValues)) =
      some [[⟨"A", 2⟩, ⟨"a", 1⟩, ⟨"B", 1⟩]] ∧
    ¬ (computeStats dbText "inv1").map
      (fun s => s.textFields.map (fun t => t.topValues)) =
      some [[⟨"A", 2⟩, ⟨"B", 1⟩, ⟨"a", 1⟩]] := by
  exact ⟨by decide, by decide⟩

/-- C8 (amended): for every text field report of a statistics
computation, the reported entries are keyed by trimmed string values
(each reported value is one of the field's trimmed, non-blank submitted
values, with its exact number of occurrences), there are at most 5 of
them, and they are ordered by descending count with ties broken by
ascending locale-collation (`localeCompare`) order of the value — so for
the values `["A", "a ", "B", "A"]` the report is `"A":2`, `"a":1`,
`"B":1`. -/
theorem textStats_semantics :
    (∀ db inventoryId stats, computeStats db inventoryId = some stats →
      ∀ tf ∈ stats.textFields,
        tf.topValues.length ≤ 5 ∧
        tf.topValues.Pairwise (fun x y => statLe x y = true) ∧
        (∀ e ∈ tf.topValues,
          e.value ∈ trimmedTexts (textRows db inventoryId) tf.fieldId ∧
          e.value ≠ "" ∧
          e.count = (trimmedTexts (textRows db inventoryId)
            tf.fieldId).count e.value)) ∧
    (computeStats dbText "inv1").map
      (fun s => s.textFields.map (fun t => t.topValues)) =
      some [[⟨"A", 2⟩, ⟨"a", 1⟩, ⟨"B", 1⟩]] := by
  constructor
  · intro db inventoryId stats hstats tf htf
    rw [computeStats_some hstats] at htf
    have htf2 : tf ∈ (textFold (textRows db inventoryId)).map (fun p =>
        { fieldId := p.1, title := p.2.title,
          topValues := topValuesOf p.2.counts : TextFieldStats }) :=
      (sortBy_perm _ _).mem_iff.mp htf
    obtain ⟨p, hp, rfl⟩ := List.mem_map.mp htf2
    obtain ⟨hnd, hok⟩ := textFold_ok (textRows db inventoryId)
    have hget : mapGet (textFold (textRows db inventoryId)) p.1 = some p.2 :=
      mapGet_of_mem_nodup hnd hp
    have hco : CountsOk p.2.counts
        (trimmedTexts (textRows db inventoryId) p.1) := by
      have h2 := hok p.1
      rw [hget] at h2
      exact h2
    obtain ⟨hcount, hmemk, hndk⟩ := hco
    refine ⟨?_, ?_, ?_⟩
    · show (topValuesOf p.2.counts).length ≤ 5
      unfold topValuesOf
      exact List.length_take_le 5 _
    · show (topValuesOf p.2.counts).Pairwise (fun x y => statLe x y = true)
      unfold topValuesOf
      exact List.Pairwise.sublist (List.take_sublist _ _)
        (sortBy_sorted statLe statLe_trans statLe_total _)
    · intro e he
      have he2 : e ∈ sortBy statLe (p.2.counts.map (fun q =>
          { value := q.1, count := q.2 : TextFieldValueStats })) :=
        (List.take_sublist _ _).subset he
      have he3 : e ∈ p.2.counts.map (fun q =>
          { value := q.1, count := q.2 : TextFieldValueStats }) :=
        (sortBy_perm _ _).mem_iff.mp he2
      obtain ⟨q, hq, rfl⟩ := List.mem_map.mp he3
      have hqmem := hmemk q hq
      refine ⟨hqmem, ne_empty_of_mem_trimmedTexts hqmem, ?_⟩
      have hc := hcount q.1
      rw [mapGet_of_mem_nodup hndk hq] at hc
      simpa using hc
  · decide

/-- Witness for C8 (amended) at the spec's example values. -/
theorem textStats_semantics_witness :
    textFieldExpected.topValues.length ≤ 5 ∧
    textFieldExpected.topValues.Pairwise (fun x y => statLe x y = true) ∧
    (∀ e ∈ textFieldExpected.topValues,
      e.value ∈ trimmedTexts (textRows dbText "inv1")
        textFieldExpected.fieldId ∧
      e.value ≠ "" ∧
      e.count = (trimmedTexts (textRows dbText "inv1")
        textFieldExpected.fieldId).count e.value) := by
  exact textStats_semantics.1 dbText "inv1" statsExpected (by decide)
    textFieldExpected (by decide)

end InvApp
